import Mathlib

/-!
Verification of the spreadsheet status/year aggregation core of the
mr-consultoria portal backend.

The development shallowly embeds, in Lean, the functions
`process_enel_legalizacao_data` (src/api/enel_spreadsheets.py) and
`parse_status_data` (src/api/spreadsheet_files.py and src/api/google_sheets.py),
together with the Python string primitives they rely on
(`str.strip`, `str.lower`, `str.split`, `int(...)`, `float(...)`,
substring containment, and insertion-ordered dictionaries, which are
modelled as association lists).  All definitions are executable and all
predicates are decidable, so every concrete scenario can be settled by
`decide`.
-/

/-! ## Python string primitives -/

/-- Whitespace characters recognised by Python's `str.strip()` / `str.split()`
(the ASCII subset, which is what spreadsheet cells contain). -/
def isPySpace (c : Char) : Bool :=
  c == ' ' || c == '\t' || c == '\n' || c == '\r' || c == '\x0b' || c == '\x0c'

/-- `str.strip()` on a character list: drop leading and trailing whitespace. -/
def stripCL (cs : List Char) : List Char :=
  ((cs.dropWhile isPySpace).reverse.dropWhile isPySpace).reverse

/-- Python `str.strip()`. -/
def pyStrip (s : String) : String :=
  String.mk (stripCL s.toList)

/-- Python `str.lower()` on one character (ASCII letters plus the Latin-1
accented range 0xC0-0xDE, which covers the Portuguese text in the sheets). -/
def pyLowerChar (c : Char) : Char :=
  let n := c.toNat
  if 65 ≤ n ∧ n ≤ 90 then Char.ofNat (n + 32)
  else if 192 ≤ n ∧ n ≤ 222 ∧ n ≠ 215 then Char.ofNat (n + 32)
  else c

/-- Python `str.lower()`. -/
def pyLower (s : String) : String :=
  String.mk (s.toList.map pyLowerChar)

/-- Python `str.split()` (no separator), with the current word accumulated in
reverse: splits on whitespace runs and drops empty words. -/
def pyWordsAux : List Char → List Char → List (List Char)
  | [], acc => if acc.isEmpty then [] else [acc.reverse]
  | c :: t, acc =>
    if isPySpace c then
      if acc.isEmpty then pyWordsAux t [] else acc.reverse :: pyWordsAux t []
    else pyWordsAux t (c :: acc)

/-- Python `str.split()` (no separator): the maximal whitespace-free words. -/
def pyWordsCL (cs : List Char) : List (List Char) :=
  pyWordsAux cs []

/-- Python `' '.join(s.split())`: collapse internal whitespace and trim. -/
def pyCollapse (s : String) : String :=
  String.intercalate " " ((pyWordsCL s.toList).map String.mk)

/-- Status normalisation used by the aggregator:
`' '.join(status_value.split()).lower()`. -/
def pyNormalize (s : String) : String :=
  pyLower (pyCollapse s)

/-- Digit tail of a Python integer literal: digits, possibly separated by
single underscores (no leading, trailing or doubled underscore). -/
def pyIntDigits : Nat → List Char → Option Nat
  | acc, [] => some acc
  | acc, '_' :: c :: t =>
    if c.isDigit then pyIntDigits (acc * 10 + (c.toNat - 48)) t else none
  | acc, c :: t =>
    if c.isDigit then pyIntDigits (acc * 10 + (c.toNat - 48)) t else none

/-- Unsigned Python integer literal (at least one digit). -/
def pyIntNat (cs : List Char) : Option Nat :=
  match cs with
  | [] => none
  | c :: t => if c.isDigit then pyIntDigits (c.toNat - 48) t else none

/-- Python `int(s)` on a string: strip whitespace, optional sign, then an
integer literal; any other content (for instance a decimal point, as in
`"2024.0"`) raises `ValueError`, modelled as `none`. -/
def pyInt (s : String) : Option Int :=
  match (pyStrip s).toList with
  | '+' :: rest => (pyIntNat rest).map (fun n => (n : Int))
  | '-' :: rest => (pyIntNat rest).map (fun n => -(n : Int))
  | cs => (pyIntNat cs).map (fun n => (n : Int))

/-- Value of a digit run (used by the float parser). -/
def digitsVal (cs : List Char) : Nat :=
  cs.foldl (fun acc c => acc * 10 + (c.toNat - 48)) 0

/-- Exponent part of a Python float literal (after `e`/`E`). -/
def pyFloatExp (cs : List Char) : Option Int :=
  match cs with
  | '+' :: rest =>
    if rest ≠ [] ∧ rest.all Char.isDigit then some (digitsVal rest : Int) else none
  | '-' :: rest =>
    if rest ≠ [] ∧ rest.all Char.isDigit then some (-(digitsVal rest : Int)) else none
  | rest =>
    if rest ≠ [] ∧ rest.all Char.isDigit then some (digitsVal rest : Int) else none

/-- Mantissa (and optional exponent) of a Python float literal:
`digits [. digits] [e exp]` with at least one digit in the mantissa. -/
def pyFloatBody (cs : List Char) : Option ℚ :=
  let ip := cs.takeWhile Char.isDigit
  let rest := cs.dropWhile Char.isDigit
  match rest with
  | [] => if ip = [] then none else some ((digitsVal ip : ℚ))
  | '.' :: rest2 =>
    let fp := rest2.takeWhile Char.isDigit
    let rest3 := rest2.dropWhile Char.isDigit
    if ip = [] ∧ fp = [] then none
    else
      let mant : ℚ := (digitsVal ip : ℚ) + (digitsVal fp : ℚ) / ((10 : ℚ) ^ fp.length)
      match rest3 with
      | [] => some mant
      | 'e' :: ex => (pyFloatExp ex).map (fun k => mant * (10 : ℚ) ^ k)
      | 'E' :: ex => (pyFloatExp ex).map (fun k => mant * (10 : ℚ) ^ k)
      | _ => none
  | 'e' :: ex =>
    if ip = [] then none
    else (pyFloatExp ex).map (fun k => (digitsVal ip : ℚ) * (10 : ℚ) ^ k)
  | 'E' :: ex =>
    if ip = [] then none
    else (pyFloatExp ex).map (fun k => (digitsVal ip : ℚ) * (10 : ℚ) ^ k)
  | _ => none

/-- Python `float(s)` restricted to finite decimal literals (the only values
occurring in percentage cells); the result is modelled as a rational. -/
def pyFloat (s : String) : Option ℚ :=
  match (pyStrip s).toList with
  | '+' :: rest => pyFloatBody rest
  | '-' :: rest => (pyFloatBody rest).map Neg.neg
  | cs => pyFloatBody cs

/-- `needle` is a prefix of the second list. -/
def isPrefixCL : List Char → List Char → Bool
  | [], _ => true
  | _ :: _, [] => false
  | a :: as, b :: bs => a == b && isPrefixCL as bs

/-- `needle` occurs inside the second list. -/
def isSubCL (needle : List Char) : List Char → Bool
  | [] => needle.isEmpty
  | h :: t => isPrefixCL needle (h :: t) || isSubCL needle t

/-- Python substring test `needle in hay`. -/
def containsSub (hay needle : String) : Bool :=
  isSubCL needle.toList hay.toList

/-! ## Insertion-ordered dictionaries as association lists -/

/-- First-match lookup, the Python `d[k]` / `d.get(k)` access. -/
def lookupA {α β : Type} [DecidableEq α] : List (α × β) → α → Option β
  | [], _ => none
  | (k, v) :: t, a => if k = a then some v else lookupA t a

/-- Lookup with a default. -/
def lookupD {α β : Type} [DecidableEq α] (m : List (α × β)) (a : α) (d : β) : β :=
  (lookupA m a).getD d

/-- The keys of an association list, in insertion order. -/
def keysA {α β : Type} (m : List (α × β)) : List α :=
  m.map Prod.fst

/-- Python `k in d`. -/
def containsA {α β : Type} [DecidableEq α] (m : List (α × β)) (a : α) : Bool :=
  decide (a ∈ keysA m)

/-- Update the (first) binding of a key in place; absent keys are untouched
(every use site is guarded so the key is present, as in the Python code where
the access would otherwise raise `KeyError`). -/
def updateA {α β : Type} [DecidableEq α] (f : β → β) : List (α × β) → α → List (α × β)
  | [], _ => []
  | (k, v) :: t, a => if k = a then (k, f v) :: t else (k, v) :: updateA f t a

/-- Sum of the values of a `Nat`-valued dictionary. -/
def sumValues {α : Type} (m : List (α × Nat)) : Nat :=
  (m.map Prod.snd).sum

/-- One step of first-occurrence deduplication. -/
def insD {α : Type} [DecidableEq α] (acc : List α) (a : α) : List α :=
  if a ∈ acc then acc else acc ++ [a]

/-- The distinct elements of a list in order of first occurrence — the key
sequence of a Python dict comprehension `{x: v for x in l}`. -/
def dedupFirst {α : Type} [DecidableEq α] (l : List α) : List α :=
  l.foldl insD []

/-- Index of the first occurrence of an element (length if absent). -/
def idxOf {α : Type} [DecidableEq α] : List α → α → Nat
  | [], _ => 0
  | a :: t, b => if a = b then 0 else idxOf t b + 1

/-- The per-year zero table `{y: 0 for y in years}`. -/
def zerosOf (years : List Int) : List (Int × Nat) :=
  (dedupFirst years).map (fun y => (y, 0))

/-! ## Data model

The tabular dataset produced by `read_spreadsheet_file` /
`get_spreadsheet_data`: a header row and string-valued data rows
(ragged rows are allowed). -/

structure SheetData where
  headers : List String
  values : List (List String)
deriving DecidableEq

/-- A year-bucketed count (`{'years': ..., 'total': ..., 'percentage': ...}`). -/
structure Bucket where
  years : List (Int × Nat)
  total : Nat
  percentage : ℚ
deriving DecidableEq

/-- One entry of the `status_counts` dictionary of
`process_enel_legalizacao_data`. -/
structure Entry where
  original : String
  years : List (Int × Nat)
  total : Nat
deriving DecidableEq

/-- A subcategory of `em_andamento`. -/
structure Subcat where
  name : String
  years : List (Int × Nat)
  total : Nat
  percentage : ℚ
deriving DecidableEq

/-- The `em_andamento` part of the result. -/
structure EmAndamento where
  total : Bucket
  subcategorias : List Subcat
deriving DecidableEq

/-- The dictionary returned by `process_enel_legalizacao_data`.  Keys that are
present only on some return paths (`years`, `warning`, `available_columns`,
`requested_column`, `requested_year_column`) are `Option`-valued; `none` means
the key is absent from the returned dict. -/
structure EnelResult where
  total_demandado : Bucket
  concluidos : Bucket
  em_andamento : EmAndamento
  years_key : Option (List Int)
  warning : Option String
  available_columns : Option (List String)
  requested_column : Option String
  requested_year_column : Option String
deriving DecidableEq

/-- The set of keys of the dict returned by `process_enel_legalizacao_data`,
reconstructed from which optional fields are populated.  Every return path of
the source emits `total_demandado`, `concluidos` and `em_andamento`; the main
path adds `years`; the two column-warning paths add `warning`,
`available_columns` and `requested_column` / `requested_year_column`. -/
def enelResultKeys (r : EnelResult) : List String :=
  ["total_demandado", "concluidos", "em_andamento"] ++
  (if r.years_key.isSome then ["years"] else []) ++
  (if r.warning.isSome then ["warning"] else []) ++
  (if r.available_columns.isSome then ["available_columns"] else []) ++
  (if r.requested_column.isSome then ["requested_column"] else []) ++
  (if r.requested_year_column.isSome then ["requested_year_column"] else [])

/-! ## The aggregator `process_enel_legalizacao_data` -/

/-- First index whose trimmed, lowercased header equals the given
pre-normalised target (the `for idx, header in enumerate(headers)` loop). -/
def findIdxNorm (target : String) : List String → Option Nat
  | [] => none
  | h :: t =>
    if pyLower (pyStrip h) = target then some 0
    else (findIdxNorm target t).map (· + 1)

/-- Resolution of the requested status column: the requested name is trimmed
and lowercased, then matched exactly against each trimmed, lowercased header. -/
def resolveColumn (name : String) (headers : List String) : Option Nat :=
  findIdxNorm (pyLower (pyStrip name)) headers

/-- Resolution of the hard-wired year column `'ano Acionamento'`
(the source lowercases the constant without stripping it). -/
def resolveYearColumn (headers : List String) : Option Nat :=
  findIdxNorm (pyLower "ano Acionamento") headers

/-- The warning message `f"Coluna '{name}' não encontrada"`. -/
def warnMsg (name : String) : String :=
  "Coluna \x27" ++ name ++ "\x27 não encontrada"

/-- The zero-data result (empty headers or rows): all counts zero,
`total_demandado.percentage` is the literal `100.0`, no optional keys. -/
def emptyResult (years : List Int) : EnelResult :=
  { total_demandado := { years := zerosOf years, total := 0, percentage := 100 }
    concluidos := { years := zerosOf years, total := 0, percentage := 0 }
    em_andamento :=
      { total := { years := zerosOf years, total := 0, percentage := 0 }
        subcategorias := [] }
    years_key := none
    warning := none
    available_columns := none
    requested_column := none
    requested_year_column := none }

/-- The result returned when the requested status column is not found. -/
def statusWarnResult (status_column : String) (headers : List String)
    (years : List Int) : EnelResult :=
  { emptyResult years with
    warning := some (warnMsg status_column)
    available_columns := some headers
    requested_column := some status_column }

/-- The result returned when the `'ano Acionamento'` column is not found. -/
def yearWarnResult (headers : List String) (years : List Int) : EnelResult :=
  { emptyResult years with
    warning := some (warnMsg "ano Acionamento")
    available_columns := some headers
    requested_year_column := some "ano Acionamento" }

/-- The status cell of a row:
`row[status_col_idx].strip() if status_col_idx < len(row) else ""`. -/
def statusValOf (si : Nat) (row : List String) : String :=
  if si < row.length then pyStrip (row.getD si "") else ""

/-- The year cell of a row:
`str(row[year_col_idx]).strip() if year_col_idx < len(row) else ""`. -/
def yearStrOf (yi : Nat) (row : List String) : String :=
  if yi < row.length then pyStrip (row.getD yi "") else ""

/-- Normalised status of a row (the `status_counts` key it would fall under). -/
def normOfRow (si : Nat) (row : List String) : String :=
  pyNormalize (statusValOf si row)

/-- The integer year of a row (meaningful only on counted rows). -/
def yearValOf (yi : Nat) (row : List String) : Int :=
  (pyInt (yearStrOf yi row)).getD 0

/-- Whether the row survives every skip condition of the row loop:
long enough, non-blank status, non-blank parseable year inside `years`. -/
def rowCounted (si yi : Nat) (years : List Int) (row : List String) : Bool :=
  decide (max si yi < row.length) &&
  !(statusValOf si row = "") &&
  !(yearStrOf yi row = "") &&
  (match pyInt (yearStrOf yi row) with
   | some ry => years.contains ry
   | none => false)

/-- The running accumulator of the row loop: `status_counts`,
`total_by_year` and `total_all`. -/
structure RowState where
  counts : List (String × Entry)
  totalByYear : List (Int × Nat)
  totalAll : Nat
deriving DecidableEq

/-- Initial accumulator of the row loop. -/
def initState (years : List Int) : RowState :=
  { counts := [], totalByYear := zerosOf years, totalAll := 0 }

/-- The contribution of one counted row: create the status entry on first
sight (keyed by the normalised status, remembering the stripped original for
display), then increment its per-year and total counters and the shared
`total_by_year` / `total_all` counters. -/
def stepCounted (si yi : Nat) (years : List Int) (st : RowState)
    (row : List String) : RowState :=
  let sv := statusValOf si row
  let k := pyNormalize sv
  let ry := yearValOf yi row
  let counts1 :=
    if containsA st.counts k then st.counts
    else st.counts ++ [(k, { original := sv, years := zerosOf years, total := 0 })]
  let counts2 := updateA
    (fun e => { original := e.original, years := updateA (· + 1) e.years ry,
                total := e.total + 1 }) counts1 k
  { counts := counts2
    totalByYear := updateA (· + 1) st.totalByYear ry
    totalAll := st.totalAll + 1 }

/-- One iteration of the row loop of `process_enel_legalizacao_data`,
with all its `continue` guards. -/
def stepRow (si yi : Nat) (years : List Int) (st : RowState)
    (row : List String) : RowState :=
  if row.length ≤ max si yi then st
  else
    let sv := statusValOf si row
    if sv = "" then st
    else
      let ys := yearStrOf yi row
      if ys = "" then st
      else
        match pyInt ys with
        | none => st
        | some ry =>
          if years.contains ry then stepCounted si yi years st row else st

/-- The whole row loop. -/
def processRows (si yi : Nat) (years : List Int)
    (rows : List (List String)) : RowState :=
  rows.foldl (stepRow si yi years) (initState years)

/-- A subcategory record built from a status entry (percentage filled later). -/
def mkSubcat (e : Entry) : Subcat :=
  { name := e.original, years := e.years, total := e.total, percentage := 0 }

/-- The `for year in years` aggregation loop
(`dst['years'][year] += src['years'][year]`); note that it iterates over the
requested year list itself, duplicates included. -/
def addYearsLoop (years : List Int) (acc src : List (Int × Nat)) :
    List (Int × Nat) :=
  years.foldl (fun a y => updateA (· + lookupD src y 0) a y) acc

/-- One iteration of the classification loop: a status whose normalised text
contains `"concluído"` is merged into the `concluidos` bucket, any other
status is appended as an `em_andamento` subcategory. -/
def conclStep (years : List Int) (p : Bucket × List Subcat)
    (kv : String × Entry) : Bucket × List Subcat :=
  if containsSub kv.1 "concluído" then
    ({ years := addYearsLoop years p.1.years kv.2.years
       total := p.1.total + kv.2.total
       percentage := p.1.percentage }, p.2)
  else
    (p.1, p.2 ++ [mkSubcat kv.2])

/-- One iteration of the `em_andamento` total loop. -/
def emStep (years : List Int) (b : Bucket) (s : Subcat) : Bucket :=
  { years := addYearsLoop years b.years s.years
    total := b.total + s.total
    percentage := b.percentage }

/-- The zero bucket `{'years': {y: 0 for y in years}, 'total': 0,
'percentage': 0.0}`. -/
def zeroBucket (years : List Int) : Bucket :=
  { years := zerosOf years, total := 0, percentage := 0 }

/-- The `concluidos` bucket accumulated by the classification loop
(before percentages). -/
def conclOf (si yi : Nat) (years : List Int)
    (rows : List (List String)) : Bucket :=
  ((processRows si yi years rows).counts.foldl (conclStep years)
    (zeroBucket years, [])).1

/-- The `em_andamento` subcategory list built by the classification loop
(before percentages). -/
def subsOf (si yi : Nat) (years : List Int)
    (rows : List (List String)) : List Subcat :=
  ((processRows si yi years rows).counts.foldl (conclStep years)
    (zeroBucket years, [])).2

/-- The `em_andamento` total bucket (before percentages). -/
def emTotalOf (si yi : Nat) (years : List Int)
    (rows : List (List String)) : Bucket :=
  (subsOf si yi years rows).foldl (emStep years) (zeroBucket years)

/-- Main path of `process_enel_legalizacao_data` once both columns are
resolved: run the row loop, split `status_counts` into the `concluidos`
bucket and the `em_andamento` subcategories, total the subcategories, then
fill in percentages when `total_all > 0`. -/
def mainResult (si yi : Nat) (years : List Int)
    (rows : List (List String)) : EnelResult :=
  let st := processRows si yi years rows
  let concl := conclOf si yi years rows
  let subs := subsOf si yi years rows
  let emT := emTotalOf si yi years rows
  { total_demandado :=
      { years := st.totalByYear, total := st.totalAll, percentage := 100 }
    concluidos :=
      if 0 < st.totalAll then
        { concl with percentage := (concl.total : ℚ) / (st.totalAll : ℚ) * 100 }
      else concl
    em_andamento :=
      { total :=
          if 0 < st.totalAll then
            { emT with percentage := (emT.total : ℚ) / (st.totalAll : ℚ) * 100 }
          else emT
        subcategorias :=
          if 0 < st.totalAll then
            subs.map (fun s =>
              { s with percentage := (s.total : ℚ) / (st.totalAll : ℚ) * 100 })
          else subs }
    years_key := some years
    warning := none
    available_columns := none
    requested_column := none
    requested_year_column := none }

/-- `process_enel_legalizacao_data(data, status_column, years)`
(src/api/enel_spreadsheets.py, lines 967-1127). -/
def process_enel_legalizacao_data (data : SheetData) (status_column : String)
    (years : List Int) : EnelResult :=
  if data.headers.isEmpty || data.values.isEmpty then emptyResult years
  else
    match resolveColumn status_column data.headers with
    | none => statusWarnResult status_column data.headers years
    | some si =>
      match resolveYearColumn data.headers with
      | none => yearWarnResult data.headers years
      | some yi => mainResult si yi years data.values

/-! ## `parse_status_data` (src/api/spreadsheet_files.py and
src/api/google_sheets.py)

The two copies of the function are identical except for how the numeric
cells (per-year values, `TOTAL`, `Percentual`) are parsed; both variants are
embedded. -/

/-- One configured status (`{'sheet_value': ..., 'display_name': ...}`). -/
structure ConfigStatus where
  sheet_value : String
  display_name : String
deriving DecidableEq

/-- The caller-supplied `status_config` dictionary.  `year_prefix`,
`total_column` and `percentage_column` model
`status_config.get('columns', {}).get(..., default)` (defaults
`'Acionados em'`, `'TOTAL'`, `'Percentual'`); `include_blank` models
`status_config.get('include_blank', False)`. -/
structure StatusConfig where
  main_statuses : List ConfigStatus
  other_statuses : List ConfigStatus
  include_blank : Bool
  year_prefix : String
  total_column : String
  percentage_column : String
deriving DecidableEq

/-- One entry of the `status_counts` dictionary of `parse_status_data`. -/
structure YT where
  years : List (Int × Int)
  total : Int
  percentage : ℚ
deriving DecidableEq

/-- An element of the returned `main_statuses` / `other_statuses` lists. -/
structure StatusOut where
  name : String
  sheet_value : String
  years : List (Int × Int)
  total : Int
  percentage : ℚ
deriving DecidableEq

/-- The dictionary returned by `parse_status_data`. -/
structure PSDResult where
  main_statuses : List StatusOut
  other_statuses : List StatusOut
deriving DecidableEq

/-- `headers.index(name)`: first index with exact string equality
(`ValueError`, modelled as `none`, when absent). -/
def idxExact (name : String) : List String → Option Nat
  | [] => none
  | h :: t => if h = name then some 0 else (idxExact name t).map (· + 1)

/-- The `year_col_indices` dictionary: for each requested year, the index of
the column named `f"{year_prefix} {year}"`, or `None`. -/
def yearColIndices (headers : List String) ( year_prefix : String)
    (years : List Int) : List (Int × Option Nat) :=
  years.map (fun y => (y, idxExact ( year_prefix ++ " " ++ toString y) headers))

/-- The fresh `status_counts` entry
`{'years': {year: 0 for year in years}, 'total': 0, 'percentage': 0.0}`. -/
def freshYT (years : List Int) : YT :=
  { years := (dedupFirst years).map (fun y => (y, (0 : Int)))
    total := 0
    percentage := 0 }

/-- Replacement of every occurrence of the character `c` by `rep`; this is
`str.replace` for a one-character pattern, the only shape the source uses. -/
def replCharCL (c : Char) (rep : List Char) : List Char → List Char
  | [] => []
  | x :: t => (if x = c then rep else [x]) ++ replCharCL c rep t

/-- `s.replace(c, rep)` for a one-character pattern `c`. -/
def pyReplaceChar (c : Char) (rep : String) (s : String) : String :=
  ⟨replCharCL c rep.data s.data⟩

/-- Numeric cleanup of the spreadsheet_files variant:
`str(cell).strip().replace(',', '').replace('.', '')`. -/
def cleanNum (s : String) : String :=
  pyReplaceChar '.' "" (pyReplaceChar ',' "" (pyStrip s))

/-- Percentage cleanup (both variants):
`cell.replace('%', '').replace(',', '.').strip()`. -/
def cleanPct (s : String) : String :=
  pyStrip (pyReplaceChar ',' "." (pyReplaceChar '%' "" s))

/-- The per-year accumulation of the spreadsheet_files variant for one row:
for each year column present, add
`int(cleaned) if cleaned else 0` to the year counter, ignoring parse errors. -/
def psdYearsFile (yci : List (Int × Option Nat)) (years : List Int)
    (row : List String) (e : YT) : YT :=
  { e with years := years.foldl (fun acc y =>
      match lookupA yci y with
      | some (some ci) =>
        if ci < row.length ∧ row.getD ci "" ≠ "" then
          let vs := cleanNum (row.getD ci "")
          if vs = "" then updateA (· + 0) acc y
          else match pyInt vs with
            | some v => updateA (· + v) acc y
            | none => acc
        else acc
      | _ => acc) e.years }

/-- The `TOTAL` assignment of the spreadsheet_files variant for one row
(assignment, not accumulation; parse errors leave the old value). -/
def psdTotalFile (ti : Option Nat) (row : List String) (e : YT) : YT :=
  match ti with
  | some ci =>
    if ci < row.length ∧ row.getD ci "" ≠ "" then
      let ts := cleanNum (row.getD ci "")
      if ts = "" then { e with total := 0 }
      else match pyInt ts with
        | some v => { e with total := v }
        | none => e
    else e
  | none => e

/-- The `Percentual` assignment of the spreadsheet_files variant for one row. -/
def psdPctFile (pi : Option Nat) (row : List String) (e : YT) : YT :=
  match pi with
  | some ci =>
    if ci < row.length ∧ row.getD ci "" ≠ "" then
      let ps := cleanPct (row.getD ci "")
      if ps = "" then { e with percentage := 0 }
      else match pyFloat ps with
        | some v => { e with percentage := v }
        | none => e
    else e
  | none => e

/-- The per-year accumulation of the google_sheets variant:
`int(row[col_idx])` directly on the raw cell. -/
def psdYearsGs (yci : List (Int × Option Nat)) (years : List Int)
    (row : List String) (e : YT) : YT :=
  { e with years := years.foldl (fun acc y =>
      match lookupA yci y with
      | some (some ci) =>
        if ci < row.length ∧ row.getD ci "" ≠ "" then
          match pyInt (row.getD ci "") with
          | some v => updateA (· + v) acc y
          | none => acc
        else acc
      | _ => acc) e.years }

/-- The `TOTAL` assignment of the google_sheets variant. -/
def psdTotalGs (ti : Option Nat) (row : List String) (e : YT) : YT :=
  match ti with
  | some ci =>
    if ci < row.length ∧ row.getD ci "" ≠ "" then
      match pyInt (row.getD ci "") with
      | some v => { e with total := v }
      | none => e
    else e
  | none => e

/-- The `Percentual` assignment of the google_sheets variant (no
empty-string fallback: `float(pct_str)` on the cleaned cell). -/
def psdPctGs (pi : Option Nat) (row : List String) (e : YT) : YT :=
  match pi with
  | some ci =>
    if ci < row.length ∧ row.getD ci "" ≠ "" then
      let ps := cleanPct (row.getD ci "")
      match pyFloat ps with
      | some v => { e with percentage := v }
      | none => e
    else e
  | none => e

/-- The row loop of `parse_status_data`, parameterised by the numeric cell
handler of the variant.  The dictionary key is the stripped (not otherwise
normalised) status cell; blank statuses are skipped unless `include_blank`. -/
def psdRows (sIdx : Nat) (include_blank : Bool) (years : List Int)
    (upd : List String → YT → YT)
    (rows : List (List String)) : List (String × YT) :=
  rows.foldl (fun counts row =>
    if row.length ≤ sIdx then counts
    else
      let sv := if sIdx < row.length then pyStrip (row.getD sIdx "") else ""
      if sv = "" ∧ include_blank = false then counts
      else
        let counts1 :=
          if containsA counts sv then counts
          else counts ++ [(sv, freshYT years)]
        updateA (upd row) counts1 sv) []

/-- The classification stage: statuses found in the configured
`main_statuses` sheet values go to the main list (with the configured display
name, found via `next(..., None)`), `elif` statuses found in the configured
`other_statuses` values go to the other list, and everything else is dropped. -/
def psdClassify (config : StatusConfig) (counts : List (String × YT)) :
    List StatusOut × List StatusOut :=
  counts.foldl (fun (p : List StatusOut × List StatusOut) kv =>
    let sv := kv.1
    let c := kv.2
    if sv ∈ config.main_statuses.map ConfigStatus.sheet_value then
      let dn := match config.main_statuses.find? (fun s => s.sheet_value = sv) with
        | some cs => cs.display_name
        | none => sv
      (p.1 ++ [{ name := dn, sheet_value := sv, years := c.years,
                 total := c.total, percentage := c.percentage }], p.2)
    else if sv ∈ config.other_statuses.map ConfigStatus.sheet_value then
      let dn := match config.other_statuses.find? (fun s => s.sheet_value = sv) with
        | some cs => cs.display_name
        | none => sv
      (p.1, p.2 ++ [{ name := dn, sheet_value := sv, years := c.years,
                      total := c.total, percentage := c.percentage }])
    else p) ([], [])

/-- The final reordering stage: walk the configured list and pick, for each
configured status, the first built entry with the same sheet value. -/
def psdReorder (configured : List ConfigStatus) (built : List StatusOut) :
    List StatusOut :=
  configured.foldl (fun acc cs =>
    match built.find? (fun s => s.sheet_value = cs.sheet_value) with
    | some f => acc ++ [f]
    | none => acc) []

/-- `parse_status_data` from src/api/spreadsheet_files.py (lines 102-271);
`.error` models the `ValueError` raised when the status column is absent. -/
def parse_status_data (data : SheetData) (status_column : String)
    (years : List Int) (config : StatusConfig) : Except String PSDResult :=
  if data.headers.isEmpty || data.values.isEmpty then
    .ok { main_statuses := [], other_statuses := [] }
  else
    match idxExact status_column data.headers with
    | none => .error (warnMsg status_column)
    | some sIdx =>
      let yci := yearColIndices data.headers config.year_prefix years
      let ti := idxExact config.total_column data.headers
      let pi := idxExact config.percentage_column data.headers
      let counts := psdRows sIdx config.include_blank years
        (fun row e => psdPctFile pi row
          (psdTotalFile ti row (psdYearsFile yci years row e))) data.values
      let cls := psdClassify config counts
      .ok { main_statuses := psdReorder config.main_statuses cls.1
            other_statuses := psdReorder config.other_statuses cls.2 }

/-- `parse_status_data` from src/api/google_sheets.py (lines 147-312). -/
def parse_status_data_gs (data : SheetData) (status_column : String)
    (years : List Int) (config : StatusConfig) : Except String PSDResult :=
  if data.headers.isEmpty || data.values.isEmpty then
    .ok { main_statuses := [], other_statuses := [] }
  else
    match idxExact status_column data.headers with
    | none => .error (warnMsg status_column)
    | some sIdx =>
      let yci := yearColIndices data.headers config.year_prefix years
      let ti := idxExact config.total_column data.headers
      let pi := idxExact config.percentage_column data.headers
      let counts := psdRows sIdx config.include_blank years
        (fun row e => psdPctGs pi row
          (psdTotalGs ti row (psdYearsGs yci years row e))) data.values
      let cls := psdClassify config counts
      .ok { main_statuses := psdReorder config.main_statuses cls.1
            other_statuses := psdReorder config.other_statuses cls.2 }

/-- Number of counted rows of `L` whose normalised status is `k`. -/
def cntK (si : Nat) (L : List (List String)) (k : String) : Nat :=
  (L.filter (fun r => decide (normOfRow si r = k))).length

/-- Number of counted rows of `L` with normalised status `k` and year `y`. -/
def cntKY (si yi : Nat) (L : List (List String)) (k : String) (y : Int) : Nat :=
  (L.filter (fun r => decide (normOfRow si r = k ∧ yearValOf yi r = y))).length

/-- Number of counted rows of `L` with year `y`. -/
def cntY (yi : Nat) (L : List (List String)) (y : Int) : Nat :=
  (L.filter (fun r => decide (yearValOf yi r = y))).length

/-- Stripped status text of the first row of `L` with normalised status `k`. -/
def origOf (si : Nat) (L : List (List String)) (k : String) : String :=
  match L.find? (fun r => decide (normOfRow si r = k)) with
  | some r => statusValOf si r
  | none => ""

/-- The `status_counts` entry the row loop builds for key `k` out of the
counted rows `L`. -/
def entrySpec (si yi : Nat) (years : List Int) (L : List (List String))
    (k : String) : Entry :=
  { original := origOf si L k
    years := (dedupFirst years).map (fun y => (y, cntKY si yi L k y))
    total := cntK si L k }

/-- The accumulator the row loop reaches after the counted rows `L`. -/
def stateSpec (si yi : Nat) (years : List Int) (L : List (List String)) :
    RowState :=
  { counts := (dedupFirst (L.map (normOfRow si))).map
      (fun k => (k, entrySpec si yi years L k))
    totalByYear := (dedupFirst years).map (fun y => (y, cntY yi L y))
    totalAll := L.length }

/-- The properties claimed of a `parse_status_data` result: entries drawn
from the configured sets, output order following configuration order, and
unconfigured status values dropped from both lists. -/
def psdOrdered (config : StatusConfig) (res : PSDResult) : Prop :=
  (∀ e ∈ res.main_statuses,
    e.sheet_value ∈ config.main_statuses.map ConfigStatus.sheet_value) ∧
  (∀ e ∈ res.other_statuses,
    e.sheet_value ∈ config.other_statuses.map ConfigStatus.sheet_value) ∧
  List.Sublist (res.main_statuses.map StatusOut.sheet_value)
    (config.main_statuses.map ConfigStatus.sheet_value) ∧
  List.Sublist (res.other_statuses.map StatusOut.sheet_value)
    (config.other_statuses.map ConfigStatus.sheet_value) ∧
  ∀ v : String, v ∉ config.main_statuses.map ConfigStatus.sheet_value →
    v ∉ config.other_statuses.map ConfigStatus.sheet_value →
    ∀ e : StatusOut, (e ∈ res.main_statuses ∨ e ∈ res.other_statuses) →
      e.sheet_value ≠ v

/-- A small concrete configuration used to exercise `parse_status_data`. -/
def sampleConfig : StatusConfig :=
  { main_statuses := [{ sheet_value := "Concluído", display_name := "Done" }]
    other_statuses := [{ sheet_value := "Em análise", display_name := "Working" }]
    include_blank := false
    year_prefix := "Acionados em"
    total_column := "TOTAL"
    percentage_column := "Percentual" }

/-- A small concrete dataset used to exercise `parse_status_data`. -/
def sampleSheet : SheetData :=
  { headers := ["Status", "Acionados em 2024", "TOTAL"]
    values := [["Concluído", "3", "3"], ["Em análise", "2", "2"],
               ["Outro", "1", "1"]] }

/-- The value both `parse_status_data` variants return on `sampleSheet`. -/
def sampleOut : PSDResult :=
  { main_statuses := [{ name := "Done", sheet_value := "Concluído",
                        years := [((2024 : Int), (3 : Int))], total := 3,
                        percentage := 0 }]
    other_statuses := [{ name := "Working", sheet_value := "Em análise",
                         years := [((2024 : Int), (2 : Int))], total := 2,
                         percentage := 0 }] }

/-! ## Generic lemmas about the dictionary model -/

theorem dedupFirst_append_single {α : Type} [DecidableEq α] (l : List α) (x : α) :
    dedupFirst (l ++ [x]) = insD (dedupFirst l) x := by
  simp [dedupFirst, List.foldl_append]

theorem mem_insD {α : Type} [DecidableEq α] {acc : List α} {a b : α} :
    b ∈ insD acc a ↔ b ∈ acc ∨ b = a := by
  unfold insD
  by_cases h : a ∈ acc
  · simp [h]
    intro hb
    subst hb
    exact h
  · simp [h]

theorem mem_dedupFirst {α : Type} [DecidableEq α] {l : List α} {a : α} :
    a ∈ dedupFirst l ↔ a ∈ l := by
  induction l using List.reverseRecOn with
  | nil => simp [dedupFirst]
  | append_singleton t x ih =>
    rw [dedupFirst_append_single]
    simp [mem_insD, ih]

theorem nodup_dedupFirst {α : Type} [DecidableEq α] (l : List α) :
    (dedupFirst l).Nodup := by
  induction l using List.reverseRecOn with
  | nil => simp [dedupFirst]
  | append_singleton t x ih =>
    rw [dedupFirst_append_single]
    unfold insD
    by_cases h : x ∈ dedupFirst t
    · simpa [h]
    · simpa [h, List.nodup_append]

theorem dedupFirst_eq_self {α : Type} [DecidableEq α] {l : List α}
    (h : l.Nodup) : dedupFirst l = l := by
  induction l using List.reverseRecOn with
  | nil => simp [dedupFirst]
  | append_singleton t x ih =>
    rw [dedupFirst_append_single]
    rw [List.nodup_append] at h
    have hx : x ∉ t := by
      intro hm
      exact h.2.2 hm (List.mem_singleton_self x)
    unfold insD
    rw [ih h.1]
    simp [hx]

theorem keysA_map {α β : Type} (ks : List α) (f : α → β) :
    keysA (ks.map (fun k => (k, f k))) = ks := by
  simp [keysA, List.map_map]
  exact List.map_id ks

theorem lookupA_map {α β : Type} [DecidableEq α] (ks : List α) (f : α → β) (a : α) :
    lookupA (ks.map (fun k => (k, f k))) a =
      if a ∈ ks then some (f a) else none := by
  induction ks with
  | nil => simp [lookupA]
  | cons k t ih =>
    by_cases h : k = a
    · subst h
      simp [lookupA]
    · have hak : ¬a = k := fun e => h e.symm
      simp [lookupA, h, ih, hak]

theorem updateA_map {α β : Type} [DecidableEq α] {ks : List α} (hk : ks.Nodup)
    (f : α → β) (g : β → β) {a : α} (ha : a ∈ ks) :
    updateA g (ks.map (fun k => (k, f k))) a =
      ks.map (fun k => (k, if k = a then g (f k) else f k)) := by
  induction ks with
  | nil => simp at ha
  | cons k t ih =>
    rcases List.nodup_cons.1 hk with ⟨hkt, hnt⟩
    by_cases h : k = a
    · subst h
      simp [updateA]
      intro x hx
      have hxk : ¬x = k := fun e => hkt (e ▸ hx)
      simp [hxk]
    · have ha' : a ∈ t := by
        rcases List.mem_cons.1 ha with h1 | h1
        · exact absurd h1.symm h
        · exact h1
      simp [updateA, h, ih hnt ha']

theorem keysA_updateA {α β : Type} [DecidableEq α] (g : β → β)
    (m : List (α × β)) (a : α) : keysA (updateA g m a) = keysA m := by
  induction m with
  | nil => simp [updateA]
  | cons kv t ih =>
    rcases kv with ⟨k, v⟩
    by_cases h : k = a
    · simp [updateA, h, keysA]
    · simp [updateA, h, keysA] at ih ⊢
      exact ih

theorem updateA_not_mem {α β : Type} [DecidableEq α] {g : β → β}
    {m : List (α × β)} {a : α} (h : a ∉ keysA m) : updateA g m a = m := by
  induction m with
  | nil => simp [updateA]
  | cons kv t ih =>
    rcases kv with ⟨k, v⟩
    simp [keysA] at h
    push_neg at h
    simp [updateA, Ne.symm h.1, ih (by simpa [keysA] using h.2)]

theorem updateA_append_right {α β : Type} [DecidableEq α] (g : β → β)
    {m : List (α × β)} {a : α} (h : a ∉ keysA m) (e : β) :
    updateA g (m ++ [(a, e)]) a = m ++ [(a, g e)] := by
  induction m with
  | nil => simp [updateA]
  | cons kv t ih =>
    rcases kv with ⟨k, v⟩
    simp [keysA] at h
    push_neg at h
    simp [updateA, Ne.symm h.1, ih (by simpa [keysA] using h.2)]

theorem lookupA_append_right {α β : Type} [DecidableEq α]
    {m m' : List (α × β)} {a : α} (h : a ∉ keysA m) :
    lookupA (m ++ m') a = lookupA m' a := by
  induction m with
  | nil => simp
  | cons kv t ih =>
    rcases kv with ⟨k, v⟩
    simp [keysA] at h
    push_neg at h
    simp [lookupA, Ne.symm h.1, ih (by simpa [keysA] using h.2)]

theorem sumValues_map {α : Type} (ks : List α) (f : α → Nat) :
    sumValues (ks.map (fun k => (k, f k))) = (ks.map f).sum := by
  simp [sumValues, List.map_map]
  rfl

theorem find?_append_some {α : Type} {p : α → Bool} {l₁ : List α} {a : α}
    (h : l₁.find? p = some a) (l₂ : List α) :
    (l₁ ++ l₂).find? p = some a := by
  rw [List.find?_append, h]
  rfl

theorem find?_append_none {α : Type} {p : α → Bool} {l₁ : List α}
    (h : l₁.find? p = none) (l₂ : List α) :
    (l₁ ++ l₂).find? p = l₂.find? p := by
  rw [List.find?_append, h]
  rfl

theorem idxOf_lt_length {α : Type} [DecidableEq α] {l : List α} {a : α}
    (h : a ∈ l) : idxOf l a < l.length := by
  induction l with
  | nil => simp at h
  | cons x t ih =>
    by_cases hx : x = a
    · simp [idxOf, hx]
    · rcases List.mem_cons.1 h with h1 | h1
      · exact absurd h1.symm hx
      · simp [idxOf, hx]
        have := ih h1
        omega

/-! ## Characterisation of the row loop -/

theorem stepRow_eq (si yi : Nat) (years : List Int) (st : RowState)
    (row : List String) :
    stepRow si yi years st row =
      if rowCounted si yi years row then stepCounted si yi years st row
      else st := by
  by_cases h1 : row.length ≤ max si yi
  · have h1' : ¬max si yi < row.length := by omega
    simp [stepRow, rowCounted, h1, h1']
  · have h1' : max si yi < row.length := by omega
    by_cases h2 : statusValOf si row = ""
    · simp [stepRow, rowCounted, h1, h1', h2]
    · by_cases h3 : yearStrOf yi row = ""
      · simp [stepRow, rowCounted, h1, h1', h2, h3]
      · cases hp : pyInt (yearStrOf yi row) with
        | none => simp [stepRow, rowCounted, h1, h1', h2, h3, hp]
        | some ry =>
          by_cases h4 : years.contains ry
          · simp [stepRow, rowCounted, h1, h1', h2, h3, hp, h4]
          · simp [stepRow, rowCounted, h1, h1', h2, h3, hp, h4]

theorem counted_facts {si yi : Nat} {years : List Int} {row : List String}
    (h : rowCounted si yi years row = true) :
    max si yi < row.length ∧ statusValOf si row ≠ "" ∧
      pyInt (yearStrOf yi row) = some (yearValOf yi row) ∧
      yearValOf yi row ∈ years := by
  unfold rowCounted at h
  cases hp : pyInt (yearStrOf yi row) with
  | none => simp [hp] at h
  | some ry =>
    simp [hp] at h
    have hy : yearValOf yi row = ry := by simp [yearValOf, hp]
    obtain ⟨⟨⟨⟨hl1, hl2⟩, hsv⟩, hys⟩, hmem⟩ := h
    exact ⟨by omega, hsv, by rw [hy], by rw [hy]; exact hmem⟩

theorem cntK_snoc (si : Nat) (L : List (List String)) (r : List String)
    (k : String) :
    cntK si (L ++ [r]) k =
      cntK si L k + (if normOfRow si r = k then 1 else 0) := by
  unfold cntK
  rw [List.filter_append]
  by_cases h : normOfRow si r = k <;> simp [h]

theorem cntKY_snoc (si yi : Nat) (L : List (List String)) (r : List String)
    (k : String) (y : Int) :
    cntKY si yi (L ++ [r]) k y =
      cntKY si yi L k y +
        (if normOfRow si r = k ∧ yearValOf yi r = y then 1 else 0) := by
  unfold cntKY
  rw [List.filter_append]
  by_cases h : normOfRow si r = k ∧ yearValOf yi r = y <;> simp [h]

theorem cntY_snoc (yi : Nat) (L : List (List String)) (r : List String)
    (y : Int) :
    cntY yi (L ++ [r]) y =
      cntY yi L y + (if yearValOf yi r = y then 1 else 0) := by
  unfold cntY
  rw [List.filter_append]
  by_cases h : yearValOf yi r = y <;> simp [h]

theorem cntK_zero {si : Nat} {L : List (List String)} {k : String}
    (h : k ∉ L.map (normOfRow si)) : cntK si L k = 0 := by
  unfold cntK
  rw [List.length_eq_zero, List.filter_eq_nil_iff]
  intro r hr
  simp only [decide_eq_true_eq]
  intro he
  exact h (List.mem_map.2 ⟨r, hr, he⟩)

theorem cntKY_zero {si yi : Nat} {L : List (List String)} {k : String}
    {y : Int} (h : k ∉ L.map (normOfRow si)) : cntKY si yi L k y = 0 := by
  unfold cntKY
  rw [List.length_eq_zero, List.filter_eq_nil_iff]
  intro r hr
  simp only [decide_eq_true_eq]
  intro he
  exact h (List.mem_map.2 ⟨r, hr, he.1⟩)

theorem find?_norm_some {si : Nat} {L : List (List String)} {k : String}
    (h : k ∈ L.map (normOfRow si)) :
    ∃ r, L.find? (fun r => decide (normOfRow si r = k)) = some r := by
  rcases List.mem_map.1 h with ⟨r, hr, he⟩
  have : (L.find? (fun r => decide (normOfRow si r = k))).isSome := by
    rw [List.find?_isSome]
    exact ⟨r, hr, by simp [he]⟩
  rcases Option.isSome_iff_exists.1 this with ⟨r0, hr0⟩
  exact ⟨r0, hr0⟩

theorem origOf_snoc_mem {si : Nat} {L : List (List String)} {k : String}
    (h : k ∈ L.map (normOfRow si)) (r : List String) :
    origOf si (L ++ [r]) k = origOf si L k := by
  rcases find?_norm_some h with ⟨r0, hr0⟩
  unfold origOf
  rw [find?_append_some hr0, hr0]

theorem origOf_snoc_new {si : Nat} {L : List (List String)} {k : String}
    (h : k ∉ L.map (normOfRow si)) {r : List String}
    (hr : normOfRow si r = k) :
    origOf si (L ++ [r]) k = statusValOf si r := by
  have hn : L.find? (fun r => decide (normOfRow si r = k)) = none := by
    rw [List.find?_eq_none]
    intro x hx
    simp only [decide_eq_true_eq]
    intro he
    exact h (List.mem_map.2 ⟨x, hx, he⟩)
  unfold origOf
  rw [find?_append_none hn]
  simp [List.find?, hr]

theorem mapTable_bump {f fPlus : Int → Nat} (years : List Int) {y0 : Int}
    (hy0 : y0 ∈ years)
    (hsame : ∀ y, ¬y = y0 → fPlus y = f y) (hbump : fPlus y0 = f y0 + 1) :
    updateA (· + 1) ((dedupFirst years).map (fun y => (y, f y))) y0 =
      (dedupFirst years).map (fun y => (y, fPlus y)) := by
  rw [updateA_map (nodup_dedupFirst years) _ _ (mem_dedupFirst.2 hy0)]
  apply List.map_congr_left
  intro y hy
  by_cases hyy : y = y0
  · subst hyy
    simp [hbump]
  · simp [hyy, hsame y hyy]

theorem stateSpec_snoc (si yi : Nat) (years : List Int)
    (L : List (List String)) {r : List String}
    (h : rowCounted si yi years r = true) :
    stepCounted si yi years (stateSpec si yi years L) r =
      stateSpec si yi years (L ++ [r]) := by
  obtain ⟨hlen, hsv, hpy, hymem⟩ := counted_facts h
  have hk0 : pyNormalize (statusValOf si r) = normOfRow si r := rfl
  have htb : updateA (· + 1)
      ((dedupFirst years).map (fun y => (y, cntY yi L y))) (yearValOf yi r) =
      (dedupFirst years).map (fun y => (y, cntY yi (L ++ [r]) y)) := by
    apply mapTable_bump years hymem
    · intro y hyy
      have hne : ¬yearValOf yi r = y := fun e => hyy e.symm
      rw [cntY_snoc]
      simp [hne]
    · rw [cntY_snoc]
      simp
  by_cases hmem : normOfRow si r ∈ L.map (normOfRow si)
  · -- the status key already exists: the entry is updated in place
    have hcont : containsA
        ((dedupFirst (L.map (normOfRow si))).map
          (fun k => (k, entrySpec si yi years L k))) (normOfRow si r) = true := by
      simp only [containsA, keysA_map, decide_eq_true_eq]
      exact mem_dedupFirst.2 hmem
    have hkeys : dedupFirst ((L ++ [r]).map (normOfRow si)) =
        dedupFirst (L.map (normOfRow si)) := by
      rw [List.map_append]
      simp only [List.map_cons, List.map_nil]
      rw [dedupFirst_append_single]
      unfold insD
      rw [if_pos (mem_dedupFirst.2 hmem)]
    simp only [stepCounted, stateSpec, hk0, hcont, if_true]
    rw [updateA_map (nodup_dedupFirst _) _ _ (mem_dedupFirst.2 hmem)]
    rw [RowState.mk.injEq]
    refine ⟨?_, htb, by simp⟩
    rw [hkeys]
    apply List.map_congr_left
    intro k hk
    by_cases hkk : k = normOfRow si r
    · subst hkk
      simp only [if_pos rfl]
      have hyrs : updateA (· + 1)
          ((dedupFirst years).map
            (fun y => (y, cntKY si yi L (normOfRow si r) y)))
          (yearValOf yi r) =
          (dedupFirst years).map
            (fun y => (y, cntKY si yi (L ++ [r]) (normOfRow si r) y)) := by
        apply mapTable_bump years hymem
        · intro y hyy
          have hne : ¬yearValOf yi r = y := fun e => hyy e.symm
          rw [cntKY_snoc]
          simp [hne]
        · rw [cntKY_snoc]
          simp
      simp [entrySpec, origOf_snoc_mem hmem r, hyrs, cntK_snoc]
    · have hne : ¬normOfRow si r = k := fun e => hkk e.symm
      simp only [if_neg hkk]
      have hkmem : k ∈ L.map (normOfRow si) := mem_dedupFirst.1 hk
      simp [entrySpec, origOf_snoc_mem hkmem r, cntKY_snoc, cntK_snoc, hne]
  · -- fresh status key: appended at the end, then updated
    have hcont : containsA
        ((dedupFirst (L.map (normOfRow si))).map
          (fun k => (k, entrySpec si yi years L k))) (normOfRow si r) = false := by
      simp only [containsA, keysA_map, decide_eq_false_iff_not]
      exact fun hc => hmem (mem_dedupFirst.1 hc)
    have hkeys : dedupFirst ((L ++ [r]).map (normOfRow si)) =
        dedupFirst (L.map (normOfRow si)) ++ [normOfRow si r] := by
      rw [List.map_append]
      simp only [List.map_cons, List.map_nil]
      rw [dedupFirst_append_single]
      unfold insD
      rw [if_neg (fun hc => hmem (mem_dedupFirst.1 hc))]
    have hnotk : normOfRow si r ∉ keysA
        ((dedupFirst (L.map (normOfRow si))).map
          (fun k => (k, entrySpec si yi years L k))) := by
      rw [keysA_map]
      exact fun hc => hmem (mem_dedupFirst.1 hc)
    simp only [stepCounted, stateSpec, hk0, hcont, Bool.false_eq_true, if_false]
    rw [updateA_append_right _ hnotk]
    rw [RowState.mk.injEq]
    refine ⟨?_, htb, by simp⟩
    rw [hkeys, List.map_append]
    congr 1
    · apply List.map_congr_left
      intro k hk
      have hkmem : k ∈ L.map (normOfRow si) := mem_dedupFirst.1 hk
      have hne : ¬normOfRow si r = k := by
        intro e
        exact hmem (e ▸ hkmem)
      simp [entrySpec, origOf_snoc_mem hkmem r, cntKY_snoc, cntK_snoc, hne]
    · have hyrs : updateA (· + 1) (zerosOf years) (yearValOf yi r) =
          (dedupFirst years).map
            (fun y => (y, cntKY si yi (L ++ [r]) (normOfRow si r) y)) := by
        unfold zerosOf
        apply mapTable_bump years hymem
        · intro y hyy
          have hne : ¬yearValOf yi r = y := fun e => hyy e.symm
          rw [cntKY_snoc, cntKY_zero hmem]
          simp [hne]
        · rw [cntKY_snoc, cntKY_zero hmem]
          simp
      simp [entrySpec, origOf_snoc_new hmem rfl, hyrs, cntK_snoc,
        cntK_zero hmem]

theorem stateSpec_nil (si yi : Nat) (years : List Int) :
    stateSpec si yi years [] = initState years := by
  unfold stateSpec initState zerosOf
  simp [cntY, dedupFirst]

theorem foldl_counted (si yi : Nat) (years : List Int) :
    ∀ (cs : List (List String)) (L : List (List String)),
      (∀ r ∈ cs, rowCounted si yi years r = true) →
      cs.foldl (stepCounted si yi years) (stateSpec si yi years L) =
        stateSpec si yi years (L ++ cs) := by
  intro cs
  induction cs with
  | nil =>
    intro L _
    simp
  | cons r t ih =>
    intro L h
    simp only [List.foldl_cons]
    rw [stateSpec_snoc si yi years L (h r (by simp))]
    rw [ih (L ++ [r]) (fun x hx => h x (by simp [hx]))]
    simp

/-- Master characterisation of the row loop: its final accumulator is fully
determined by the subsequence of counted rows. -/
theorem processRows_eq (si yi : Nat) (years : List Int)
    (rows : List (List String)) :
    processRows si yi years rows =
      stateSpec si yi years (rows.filter (rowCounted si yi years)) := by
  unfold processRows
  have base : ∀ (rs : List (List String)) (st : RowState),
      rs.foldl (stepRow si yi years) st =
        (rs.filter (rowCounted si yi years)).foldl (stepCounted si yi years) st := by
    intro rs
    induction rs with
    | nil =>
      intro st
      simp
    | cons r t ih =>
      intro st
      simp only [List.foldl_cons, List.filter_cons]
      rw [stepRow_eq]
      by_cases hc : rowCounted si yi years r = true
      · simp [hc, ih]
      · simp only [Bool.not_eq_true] at hc
        simp [hc, ih]
  rw [base, ← stateSpec_nil si yi years,
    foldl_counted si yi years _ [] (fun r hr => List.of_mem_filter hr)]
  simp

/-! ## Summation lemmas for the classification stage -/

theorem sum_map_add {β : Type} (l : List β) (g h : β → Nat) :
    (l.map (fun x => g x + h x)).sum = (l.map g).sum + (l.map h).sum := by
  induction l with
  | nil => simp
  | cons x t ih =>
    simp [ih]
    omega

theorem sum_ite_eq_one {α : Type} [DecidableEq α] {ys : List α} (hN : ys.Nodup)
    {a : α} (ha : a ∈ ys) :
    (ys.map (fun y => if a = y then 1 else 0)).sum = 1 := by
  induction ys with
  | nil => simp at ha
  | cons y0 t ih =>
    rcases List.nodup_cons.1 hN with ⟨hy0, hnt⟩
    by_cases h : a = y0
    · subst h
      have hz : (t.map (fun y => if a = y then 1 else 0)).sum = 0 := by
        apply List.sum_eq_zero
        intro x hx
        rcases List.mem_map.1 hx with ⟨y, hy, he⟩
        have hay : ¬a = y := fun e => hy0 (e ▸ hy)
        rw [← he]
        simp [hay]
      simp [hz]
    · have ha' : a ∈ t := by
        rcases List.mem_cons.1 ha with h1 | h1
        · exact absurd h1 h
        · exact h1
      simp [h, ih hnt ha']

theorem partition_count {α β : Type} [DecidableEq α] (f : β → α) {ys : List α}
    (hN : ys.Nodup) :
    ∀ (L : List β), (∀ r ∈ L, f r ∈ ys) →
    (ys.map (fun y => (L.filter (fun r => decide (f r = y))).length)).sum =
      L.length := by
  intro L
  induction L with
  | nil => simp
  | cons r t ih =>
    intro h
    have hr : f r ∈ ys := h r (List.mem_cons_self r t)
    have ht : ∀ x ∈ t, f x ∈ ys := fun x hx => h x (List.mem_cons_of_mem r hx)
    have hstep : ∀ y : α,
        ((r :: t).filter (fun x => decide (f x = y))).length =
          (t.filter (fun x => decide (f x = y))).length +
            (if f r = y then 1 else 0) := by
      intro y
      by_cases hy : f r = y <;> simp [List.filter_cons, hy]
    calc (ys.map (fun y => ((r :: t).filter (fun x => decide (f x = y))).length)).sum
        = (ys.map (fun y => (t.filter (fun x => decide (f x = y))).length +
            (if f r = y then 1 else 0))).sum := by
          congr 1
          exact List.map_congr_left (fun y _ => hstep y)
      _ = (ys.map (fun y => (t.filter (fun x => decide (f x = y))).length)).sum +
            (ys.map (fun y => if f r = y then 1 else 0)).sum :=
          sum_map_add ys _ _
      _ = t.length + 1 := by rw [ih ht, sum_ite_eq_one hN hr]
      _ = (r :: t).length := by simp

theorem sumValues_updateA_add {α : Type} [DecidableEq α]
    (m : List (α × Nat)) (a : α) (n : Nat) :
    sumValues (updateA (· + n) m a) =
      sumValues m + (if a ∈ keysA m then n else 0) := by
  induction m with
  | nil => simp [updateA, sumValues, keysA]
  | cons kv t ih =>
    rcases kv with ⟨k, v⟩
    by_cases h : k = a
    · subst h
      rw [if_pos (show k ∈ keysA ((k, v) :: t) by simp [keysA])]
      simp [updateA, sumValues]
      omega
    · have hak : ¬a = k := fun e => h e.symm
      simp only [updateA, if_neg h]
      have h1 : sumValues ((k, v) :: updateA (· + n) t a) =
          v + sumValues (updateA (· + n) t a) := by simp [sumValues]
      have h2 : sumValues ((k, v) :: t) = v + sumValues t := by simp [sumValues]
      rw [h1, ih, h2]
      by_cases hm : a ∈ keysA t
      · rw [if_pos hm, if_pos (show a ∈ keysA ((k, v) :: t) by
          simp [keysA]
          right
          simpa [keysA] using hm)]
        omega
      · rw [if_neg hm, if_neg (show a ∉ keysA ((k, v) :: t) by
          simp [keysA, hak]
          simpa [keysA] using hm)]
        omega

theorem sumValues_eq_sum_lookup {α : Type} [DecidableEq α]
    (m : List (α × Nat)) (h : (keysA m).Nodup) :
    ((keysA m).map (fun a => lookupD m a 0)).sum = sumValues m := by
  induction m with
  | nil => simp [keysA, sumValues]
  | cons kv t ih =>
    rcases kv with ⟨k, v⟩
    simp only [keysA, List.map_cons] at h ⊢
    rcases List.nodup_cons.1 h with ⟨hk, hnt⟩
    have hlk : lookupD ((k, v) :: t) k 0 = v := by simp [lookupD, lookupA]
    have hrest : (t.map Prod.fst).map (fun a => lookupD ((k, v) :: t) a 0) =
        (t.map Prod.fst).map (fun a => lookupD t a 0) := by
      apply List.map_congr_left
      intro a ha
      have : ¬k = a := fun e => hk (e ▸ ha)
      simp [lookupD, lookupA, this]
    simp only [List.map_cons, List.sum_cons, hlk, hrest]
    have ih' := ih hnt
    simp only [keysA] at ih'
    rw [ih']
    simp [sumValues]

theorem addYearsLoop_keys (src : List (Int × Nat)) :
    ∀ (ys : List Int) (acc : List (Int × Nat)),
      keysA (ys.foldl (fun a y => updateA (· + lookupD src y 0) a y) acc) =
        keysA acc := by
  intro ys
  induction ys with
  | nil =>
    intro acc
    rfl
  | cons y t ih =>
    intro acc
    simp only [List.foldl_cons]
    rw [ih, keysA_updateA]

theorem foldl_bump_sum (src : List (Int × Nat)) :
    ∀ (ys : List Int) (acc : List (Int × Nat)),
      (∀ y ∈ ys, y ∈ keysA acc) →
      sumValues (ys.foldl (fun a y => updateA (· + lookupD src y 0) a y) acc) =
        sumValues acc + (ys.map (fun y => lookupD src y 0)).sum := by
  intro ys
  induction ys with
  | nil =>
    intro acc _
    simp
  | cons y t ih =>
    intro acc h
    simp only [List.foldl_cons, List.map_cons, List.sum_cons]
    have hmem : ∀ z ∈ t, z ∈ keysA (updateA (· + lookupD src y 0) acc y) := by
      intro z hz
      rw [keysA_updateA]
      exact h z (List.mem_cons_of_mem y hz)
    rw [ih _ hmem, sumValues_updateA_add, if_pos (h y (List.mem_cons_self y t))]
    omega

theorem addYearsLoop_sum {years : List Int} (hN : years.Nodup)
    {acc src : List (Int × Nat)} (hacc : ∀ y ∈ years, y ∈ keysA acc)
    (hsrc : keysA src = years) :
    sumValues (addYearsLoop years acc src) = sumValues acc + sumValues src := by
  unfold addYearsLoop
  rw [foldl_bump_sum src years acc hacc]
  congr 1
  have h := sumValues_eq_sum_lookup src (by rw [hsrc]; exact hN)
  rw [hsrc] at h
  exact h

theorem conclFold_subs (years : List Int) :
    ∀ (entries : List (String × Entry)) (b : Bucket) (s : List Subcat),
      (entries.foldl (conclStep years) (b, s)).2 =
        s ++ (entries.filter (fun kv => !containsSub kv.1 "concluído")).map
          (fun kv => mkSubcat kv.2) := by
  intro entries
  induction entries with
  | nil =>
    intro b s
    simp
  | cons kv t ih =>
    intro b s
    simp only [List.foldl_cons, List.filter_cons]
    by_cases hc : containsSub kv.1 "concluído" = true
    · simp [conclStep, hc, ih]
    · have hc' : containsSub kv.1 "concluído" = false := by simpa using hc
      simp [conclStep, hc', ih]

theorem conclFold_total (years : List Int) :
    ∀ (entries : List (String × Entry)) (b : Bucket) (s : List Subcat),
      ((entries.foldl (conclStep years) (b, s)).1).total =
        b.total + ((entries.filter (fun kv => containsSub kv.1 "concluído")).map
          (fun kv => kv.2.total)).sum := by
  intro entries
  induction entries with
  | nil =>
    intro b s
    simp
  | cons kv t ih =>
    intro b s
    simp only [List.foldl_cons, List.filter_cons]
    by_cases hc : containsSub kv.1 "concluído" = true
    · simp only [hc, if_true]
      rw [show conclStep years (b, s) kv =
          ({ years := addYearsLoop years b.years kv.2.years
             total := b.total + kv.2.total
             percentage := b.percentage }, s) by simp [conclStep, hc]]
      rw [ih]
      simp
      omega
    · have hc' : containsSub kv.1 "concluído" = false := by simpa using hc
      rw [show conclStep years (b, s) kv = (b, s ++ [mkSubcat kv.2]) by
        simp [conclStep, hc']]
      rw [ih]
      simp [hc']

theorem conclFold_years_keys (years : List Int) :
    ∀ (entries : List (String × Entry)) (b : Bucket) (s : List Subcat),
      keysA (((entries.foldl (conclStep years) (b, s)).1).years) =
        keysA b.years := by
  intro entries
  induction entries with
  | nil =>
    intro b s
    rfl
  | cons kv t ih =>
    intro b s
    simp only [List.foldl_cons]
    by_cases hc : containsSub kv.1 "concluído" = true
    · rw [show conclStep years (b, s) kv =
          ({ years := addYearsLoop years b.years kv.2.years
             total := b.total + kv.2.total
             percentage := b.percentage }, s) by simp [conclStep, hc]]
      rw [ih]
      exact addYearsLoop_keys kv.2.years years b.years
    · have hc' : containsSub kv.1 "concluído" = false := by simpa using hc
      rw [show conclStep years (b, s) kv = (b, s ++ [mkSubcat kv.2]) by
        simp [conclStep, hc']]
      rw [ih]

theorem conclFold_years_sum (years : List Int) (hN : years.Nodup) :
    ∀ (entries : List (String × Entry)) (b : Bucket) (s : List Subcat),
      (∀ kv ∈ entries, keysA kv.2.years = years) →
      (∀ y ∈ years, y ∈ keysA b.years) →
      sumValues (((entries.foldl (conclStep years) (b, s)).1).years) =
        sumValues b.years +
          ((entries.filter (fun kv => containsSub kv.1 "concluído")).map
            (fun kv => sumValues kv.2.years)).sum := by
  intro entries
  induction entries with
  | nil =>
    intro b s _ _
    simp
  | cons kv t ih =>
    intro b s hkeys hacc
    simp only [List.foldl_cons, List.filter_cons]
    by_cases hc : containsSub kv.1 "concluído" = true
    · rw [show conclStep years (b, s) kv =
          ({ years := addYearsLoop years b.years kv.2.years
             total := b.total + kv.2.total
             percentage := b.percentage }, s) by simp [conclStep, hc]]
      have hsum : sumValues (addYearsLoop years b.years kv.2.years) =
          sumValues b.years + sumValues kv.2.years :=
        addYearsLoop_sum hN hacc (hkeys kv (List.mem_cons_self kv t))
      have hacc' : ∀ y ∈ years, y ∈ keysA (addYearsLoop years b.years kv.2.years) := by
        intro y hy
        rw [show keysA (addYearsLoop years b.years kv.2.years) = keysA b.years from
          addYearsLoop_keys kv.2.years years b.years]
        exact hacc y hy
      rw [ih _ s (fun x hx => hkeys x (List.mem_cons_of_mem kv hx)) hacc']
      simp only [hc, if_true, List.map_cons, List.sum_cons]
      rw [hsum]
      omega
    · have hc' : containsSub kv.1 "concluído" = false := by simpa using hc
      rw [show conclStep years (b, s) kv = (b, s ++ [mkSubcat kv.2]) by
        simp [conclStep, hc']]
      rw [ih _ _ (fun x hx => hkeys x (List.mem_cons_of_mem kv hx)) hacc]
      simp [hc']

theorem emFold_total (years : List Int) :
    ∀ (subs : List Subcat) (b : Bucket),
      ((subs.foldl (emStep years) b)).total =
        b.total + (subs.map Subcat.total).sum := by
  intro subs
  induction subs with
  | nil =>
    intro b
    simp
  | cons x t ih =>
    intro b
    simp only [List.foldl_cons, List.map_cons, List.sum_cons]
    rw [ih]
    simp [emStep]
    omega

theorem emFold_years_keys (years : List Int) :
    ∀ (subs : List Subcat) (b : Bucket),
      keysA ((subs.foldl (emStep years) b).years) = keysA b.years := by
  intro subs
  induction subs with
  | nil =>
    intro b
    rfl
  | cons x t ih =>
    intro b
    simp only [List.foldl_cons]
    rw [ih]
    simp only [emStep]
    exact addYearsLoop_keys x.years years b.years

theorem emFold_years_sum (years : List Int) (hN : years.Nodup) :
    ∀ (subs : List Subcat) (b : Bucket),
      (∀ x ∈ subs, keysA x.years = years) →
      (∀ y ∈ years, y ∈ keysA b.years) →
      sumValues ((subs.foldl (emStep years) b).years) =
        sumValues b.years + (subs.map (fun x => sumValues x.years)).sum := by
  intro subs
  induction subs with
  | nil =>
    intro b _ _
    simp
  | cons x t ih =>
    intro b hkeys hacc
    simp only [List.foldl_cons, List.map_cons, List.sum_cons]
    have hsum : sumValues (addYearsLoop years b.years x.years) =
        sumValues b.years + sumValues x.years :=
      addYearsLoop_sum hN hacc (hkeys x (List.mem_cons_self x t))
    have hacc' : ∀ y ∈ years, y ∈ keysA (addYearsLoop years b.years x.years) := by
      intro y hy
      rw [show keysA (addYearsLoop years b.years x.years) = keysA b.years from
        addYearsLoop_keys x.years years b.years]
      exact hacc y hy
    rw [ih _ (fun z hz => hkeys z (List.mem_cons_of_mem x hz)) hacc']
    simp only [emStep]
    rw [hsum]
    omega

theorem partition_count_filter {α β : Type} [DecidableEq α] (f : β → α)
    (p : α → Bool) {ys : List α} (hN : ys.Nodup) :
    ∀ (L : List β), (∀ r ∈ L, f r ∈ ys) →
    ((ys.filter p).map
      (fun y => (L.filter (fun r => decide (f r = y))).length)).sum =
      (L.filter (fun r => p (f r))).length := by
  intro L
  induction L with
  | nil => simp
  | cons r t ih =>
    intro h
    have hr : f r ∈ ys := h r (List.mem_cons_self r t)
    have ht : ∀ x ∈ t, f x ∈ ys := fun x hx => h x (List.mem_cons_of_mem r hx)
    have hstep : ∀ y : α,
        ((r :: t).filter (fun x => decide (f x = y))).length =
          (t.filter (fun x => decide (f x = y))).length +
            (if f r = y then 1 else 0) := by
      intro y
      by_cases hy : f r = y <;> simp [List.filter_cons, hy]
    have hone : ((ys.filter p).map (fun y => if f r = y then 1 else 0)).sum =
        (if p (f r) then 1 else 0) := by
      by_cases hp : p (f r) = true
      · rw [if_pos hp]
        exact sum_ite_eq_one (hN.filter p) (List.mem_filter.2 ⟨hr, hp⟩)
      · have hp' : p (f r) = false := by simpa using hp
        have hz : ((ys.filter p).map (fun y => if f r = y then 1 else 0)).sum = 0 := by
          apply List.sum_eq_zero
          intro x hx
          rcases List.mem_map.1 hx with ⟨y, hy, he⟩
          have hpy : p y = true := (List.mem_filter.1 hy).2
          have hfr : ¬f r = y := by
            intro e
            rw [e, hpy] at hp'
            exact absurd hp' (by simp)
          rw [← he]
          simp [hfr]
        rw [hp', hz]
        simp
    calc ((ys.filter p).map
          (fun y => ((r :: t).filter (fun x => decide (f x = y))).length)).sum
        = ((ys.filter p).map
            (fun y => (t.filter (fun x => decide (f x = y))).length +
              (if f r = y then 1 else 0))).sum := by
          congr 1
          exact List.map_congr_left (fun y _ => hstep y)
      _ = ((ys.filter p).map
            (fun y => (t.filter (fun x => decide (f x = y))).length)).sum +
            ((ys.filter p).map (fun y => if f r = y then 1 else 0)).sum :=
          sum_map_add _ _ _
      _ = (t.filter (fun x => p (f x))).length + (if p (f r) then 1 else 0) := by
          rw [ih ht, hone]
      _ = ((r :: t).filter (fun x => p (f x))).length := by
          by_cases hp : p (f r) = true <;> simp [List.filter_cons, hp]

theorem sum_filter_add {β : Type} (l : List β) (p : β → Bool) (f : β → Nat) :
    ((l.filter p).map f).sum + ((l.filter (fun x => !p x)).map f).sum =
      (l.map f).sum := by
  induction l with
  | nil => simp
  | cons x t ih =>
    by_cases hp : p x = true
    · simp [List.filter_cons, hp]
      omega
    · have hp' : p x = false := by simpa using hp
      simp [List.filter_cons, hp']
      omega

theorem filter_of_map {α β : Type} (g : α → β) (p : β → Bool) (l : List α) :
    (l.map g).filter p = (l.filter (fun x => p (g x))).map g := by
  induction l with
  | nil => simp
  | cons x t ih =>
    by_cases hp : p (g x) = true
    · simp [List.filter_cons, hp, ih]
    · have hp' : p (g x) = false := by simpa using hp
      simp [List.filter_cons, hp', ih]

theorem filter_and_comm {β : Type} (p q : β → Prop) [DecidablePred p]
    [DecidablePred q] (l : List β) :
    l.filter (fun r => decide (p r ∧ q r)) =
      (l.filter (fun r => decide (p r))).filter (fun r => decide (q r)) := by
  rw [List.filter_filter]
  apply List.filter_congr
  intro a _
  simp [Bool.and_comm]

theorem norm_origOf {si : Nat} {L : List (List String)} {k : String}
    (h : k ∈ L.map (normOfRow si)) : pyNormalize (origOf si L k) = k := by
  rcases find?_norm_some h with ⟨r0, hr0⟩
  have hp := List.find?_some hr0
  simp only [decide_eq_true_eq] at hp
  unfold origOf
  rw [hr0]
  exact hp

theorem entrySpec_years_sum (si yi : Nat) (years : List Int)
    {L : List (List String)} (k : String)
    (hall : ∀ r ∈ L, rowCounted si yi years r = true) :
    sumValues (entrySpec si yi years L k).years = cntK si L k := by
  unfold entrySpec
  rw [sumValues_map]
  have hsplit : ∀ y : Int, cntKY si yi L k y =
      ((L.filter (fun r => decide (normOfRow si r = k))).filter
        (fun r => decide (yearValOf yi r = y))).length := by
    intro y
    unfold cntKY
    rw [filter_and_comm]
  have hmem : ∀ r ∈ L.filter (fun r => decide (normOfRow si r = k)),
      yearValOf yi r ∈ dedupFirst years := by
    intro r hr
    have hrL : r ∈ L := List.mem_of_mem_filter hr
    exact mem_dedupFirst.2 (counted_facts (hall r hrL)).2.2.2
  calc ((dedupFirst years).map (fun y => cntKY si yi L k y)).sum
      = ((dedupFirst years).map (fun y =>
          ((L.filter (fun r => decide (normOfRow si r = k))).filter
            (fun r => decide (yearValOf yi r = y))).length)).sum := by
        congr 1
        exact List.map_congr_left (fun y _ => hsplit y)
    _ = (L.filter (fun r => decide (normOfRow si r = k))).length :=
        partition_count (yearValOf yi) (nodup_dedupFirst years) _ hmem
    _ = cntK si L k := rfl

theorem totalByYear_sum (si yi : Nat) (years : List Int)
    {L : List (List String)}
    (hall : ∀ r ∈ L, rowCounted si yi years r = true) :
    sumValues (stateSpec si yi years L).totalByYear = L.length := by
  unfold stateSpec
  rw [sumValues_map]
  unfold cntY
  exact partition_count (yearValOf yi) (nodup_dedupFirst years) L
    (fun r hr => mem_dedupFirst.2 (counted_facts (hall r hr)).2.2.2)

/-! ## Branch and projection lemmas for `process_enel_legalizacao_data` -/

theorem process_empty {data : SheetData} {col : String} {years : List Int}
    (h : data.headers = [] ∨ data.values = []) :
    process_enel_legalizacao_data data col years = emptyResult years := by
  unfold process_enel_legalizacao_data
  rcases h with h | h <;> simp [h]

theorem process_status_warn {data : SheetData} {col : String} {years : List Int}
    (h1 : data.headers ≠ []) (h2 : data.values ≠ [])
    (h : resolveColumn col data.headers = none) :
    process_enel_legalizacao_data data col years =
      statusWarnResult col data.headers years := by
  unfold process_enel_legalizacao_data
  simp [List.isEmpty_iff, h1, h2, h]

theorem process_year_warn {data : SheetData} {col : String} {years : List Int}
    {si : Nat} (h1 : data.headers ≠ []) (h2 : data.values ≠ [])
    (hs : resolveColumn col data.headers = some si)
    (hy : resolveYearColumn data.headers = none) :
    process_enel_legalizacao_data data col years =
      yearWarnResult data.headers years := by
  unfold process_enel_legalizacao_data
  simp [List.isEmpty_iff, h1, h2, hs, hy]

theorem process_main {data : SheetData} {col : String} {years : List Int}
    {si yi : Nat} (h1 : data.headers ≠ []) (h2 : data.values ≠ [])
    (hs : resolveColumn col data.headers = some si)
    (hy : resolveYearColumn data.headers = some yi) :
    process_enel_legalizacao_data data col years =
      mainResult si yi years data.values := by
  unfold process_enel_legalizacao_data
  simp [List.isEmpty_iff, h1, h2, hs, hy]

theorem counts_eq (si yi : Nat) (years : List Int)
    (rows : List (List String)) :
    (processRows si yi years rows).counts =
      (dedupFirst ((rows.filter (rowCounted si yi years)).map (normOfRow si))).map
        (fun k => (k, entrySpec si yi years
          (rows.filter (rowCounted si yi years)) k)) := by
  rw [processRows_eq]
  rfl

theorem conclOf_total (si yi : Nat) (years : List Int)
    (rows : List (List String)) :
    (conclOf si yi years rows).total =
      (((processRows si yi years rows).counts.filter
        (fun kv => containsSub kv.1 "concluído")).map
          (fun kv => kv.2.total)).sum := by
  unfold conclOf
  rw [conclFold_total]
  simp [zeroBucket]

theorem subsOf_eq (si yi : Nat) (years : List Int)
    (rows : List (List String)) :
    subsOf si yi years rows =
      ((processRows si yi years rows).counts.filter
        (fun kv => !containsSub kv.1 "concluído")).map
          (fun kv => mkSubcat kv.2) := by
  unfold subsOf
  rw [conclFold_subs]
  simp

theorem emTotalOf_total (si yi : Nat) (years : List Int)
    (rows : List (List String)) :
    (emTotalOf si yi years rows).total =
      ((subsOf si yi years rows).map Subcat.total).sum := by
  unfold emTotalOf
  rw [emFold_total]
  simp [zeroBucket]

theorem mainResult_td (si yi : Nat) (years : List Int)
    (rows : List (List String)) :
    (mainResult si yi years rows).total_demandado =
      { years := (processRows si yi years rows).totalByYear
        total := (processRows si yi years rows).totalAll
        percentage := 100 } := rfl

theorem mainResult_concl_total (si yi : Nat) (years : List Int)
    (rows : List (List String)) :
    (mainResult si yi years rows).concluidos.total =
      (conclOf si yi years rows).total := by
  unfold mainResult
  by_cases h : 0 < (processRows si yi years rows).totalAll <;> simp [h]

theorem mainResult_concl_years (si yi : Nat) (years : List Int)
    (rows : List (List String)) :
    (mainResult si yi years rows).concluidos.years =
      (conclOf si yi years rows).years := by
  unfold mainResult
  by_cases h : 0 < (processRows si yi years rows).totalAll <;> simp [h]

theorem mainResult_em_total (si yi : Nat) (years : List Int)
    (rows : List (List String)) :
    (mainResult si yi years rows).em_andamento.total.total =
      (emTotalOf si yi years rows).total := by
  unfold mainResult
  by_cases h : 0 < (processRows si yi years rows).totalAll <;> simp [h]

theorem mainResult_em_years (si yi : Nat) (years : List Int)
    (rows : List (List String)) :
    (mainResult si yi years rows).em_andamento.total.years =
      (emTotalOf si yi years rows).years := by
  unfold mainResult
  by_cases h : 0 < (processRows si yi years rows).totalAll <;> simp [h]

theorem mainResult_subs_pointwise (si yi : Nat) (years : List Int)
    (rows : List (List String))
    (P : String → List (Int × Nat) → Nat → Prop)
    (h : ∀ s ∈ subsOf si yi years rows, P s.name s.years s.total) :
    ∀ s ∈ (mainResult si yi years rows).em_andamento.subcategorias,
      P s.name s.years s.total := by
  intro s hs
  unfold mainResult at hs
  by_cases hc : 0 < (processRows si yi years rows).totalAll
  · simp [hc] at hs
    rcases hs with ⟨s0, hs0, rfl⟩
    exact h s0 hs0
  · simp [hc] at hs
    exact h s hs

theorem mainResult_subs_names (si yi : Nat) (years : List Int)
    (rows : List (List String)) :
    ((mainResult si yi years rows).em_andamento.subcategorias).map Subcat.name =
      (subsOf si yi years rows).map Subcat.name := by
  unfold mainResult
  by_cases h : 0 < (processRows si yi years rows).totalAll <;>
    simp [h, List.map_map, Function.comp]

theorem filter_length_split {β : Type} (l : List β) (p : β → Bool) :
    (l.filter p).length + (l.filter (fun x => !p x)).length = l.length := by
  induction l with
  | nil => simp
  | cons x t ih =>
    by_cases hp : p x = true
    · simp [List.filter_cons, hp]
      omega
    · have hp' : p x = false := by simpa using hp
      simp [List.filter_cons, hp']
      omega

theorem conclOf_total_rows (si yi : Nat) (years : List Int)
    (rows : List (List String)) :
    (conclOf si yi years rows).total =
      ((rows.filter (rowCounted si yi years)).filter
        (fun r => containsSub (normOfRow si r) "concluído")).length := by
  rw [conclOf_total, counts_eq, filter_of_map, List.map_map]
  exact partition_count_filter (normOfRow si) _ (nodup_dedupFirst _) _
    (fun r hr => mem_dedupFirst.2 (List.mem_map_of_mem _ hr))

theorem subsOf_eq_rows (si yi : Nat) (years : List Int)
    (rows : List (List String)) :
    subsOf si yi years rows =
      ((dedupFirst ((rows.filter (rowCounted si yi years)).map
        (normOfRow si))).filter (fun k => !containsSub k "concluído")).map
          (fun k => mkSubcat (entrySpec si yi years
            (rows.filter (rowCounted si yi years)) k)) := by
  rw [subsOf_eq, counts_eq, filter_of_map, List.map_map]
  rfl

theorem emTotalOf_total_rows (si yi : Nat) (years : List Int)
    (rows : List (List String)) :
    (emTotalOf si yi years rows).total =
      ((rows.filter (rowCounted si yi years)).filter
        (fun r => !containsSub (normOfRow si r) "concluído")).length := by
  rw [emTotalOf_total, subsOf_eq_rows, List.map_map]
  exact partition_count_filter (normOfRow si) _ (nodup_dedupFirst _) _
    (fun r hr => mem_dedupFirst.2 (List.mem_map_of_mem _ hr))

/-- Core conservation identity of the aggregator (main path): the grand total
is the concluded total plus the in-progress total. -/
theorem mainResult_conservation (si yi : Nat) (years : List Int)
    (rows : List (List String)) :
    (mainResult si yi years rows).total_demandado.total =
      (mainResult si yi years rows).concluidos.total +
        (mainResult si yi years rows).em_andamento.total.total := by
  rw [mainResult_td, mainResult_concl_total, mainResult_em_total]
  rw [conclOf_total_rows, emTotalOf_total_rows]
  show (processRows si yi years rows).totalAll = _
  rw [processRows_eq]
  show (rows.filter (rowCounted si yi years)).length = _
  rw [filter_length_split (rows.filter (rowCounted si yi years))
    (fun r => containsSub (normOfRow si r) "concluído")]

theorem zerosOf_sum (years : List Int) : sumValues (zerosOf years) = 0 := by
  unfold zerosOf
  rw [sumValues_map]
  apply List.sum_eq_zero
  intro x hx
  rcases List.mem_map.1 hx with ⟨y, _, he⟩
  exact he.symm

theorem zerosOf_keys (years : List Int) : keysA (zerosOf years) = dedupFirst years := by
  unfold zerosOf
  exact keysA_map _ _

theorem conclOf_years_sum (si yi : Nat) {years : List Int} (hN : years.Nodup)
    (rows : List (List String)) :
    sumValues (conclOf si yi years rows).years = (conclOf si yi years rows).total := by
  have hall : ∀ r ∈ rows.filter (rowCounted si yi years),
      rowCounted si yi years r = true := fun r hr => List.of_mem_filter hr
  unfold conclOf
  rw [counts_eq]
  rw [conclFold_years_sum years hN _ _ _ ?hkeys ?hacc]
  case hkeys =>
    intro kv hkv
    rcases List.mem_map.1 hkv with ⟨k, _, he⟩
    rw [← he]
    show keysA (entrySpec si yi years _ k).years = years
    unfold entrySpec
    rw [keysA_map, dedupFirst_eq_self hN]
  case hacc =>
    intro y hy
    show y ∈ keysA (zerosOf years)
    rw [zerosOf_keys]
    exact mem_dedupFirst.2 hy
  show sumValues (zerosOf years) + _ = _
  rw [zerosOf_sum, conclFold_total years]
  show 0 + _ = (zeroBucket years).total + _
  simp only [zeroBucket, Nat.zero_add]
  rw [filter_of_map, List.map_map, List.map_map]
  congr 1
  apply List.map_congr_left
  intro k _
  exact entrySpec_years_sum si yi years k hall

theorem subsOf_years_sum (si yi : Nat) (years : List Int)
    (rows : List (List String)) :
    ∀ s ∈ subsOf si yi years rows, sumValues s.years = s.total := by
  have hall : ∀ r ∈ rows.filter (rowCounted si yi years),
      rowCounted si yi years r = true := fun r hr => List.of_mem_filter hr
  intro s hs
  rw [subsOf_eq_rows] at hs
  rcases List.mem_map.1 hs with ⟨k, _, he⟩
  rw [← he]
  show sumValues (entrySpec si yi years _ k).years = cntK si _ k
  exact entrySpec_years_sum si yi years k hall

theorem emTotalOf_years_sum (si yi : Nat) {years : List Int} (hN : years.Nodup)
    (rows : List (List String)) :
    sumValues (emTotalOf si yi years rows).years =
      (emTotalOf si yi years rows).total := by
  unfold emTotalOf
  rw [emFold_years_sum years hN _ _ ?hkeys ?hacc]
  case hkeys =>
    intro x hx
    rw [subsOf_eq_rows] at hx
    rcases List.mem_map.1 hx with ⟨k, _, he⟩
    rw [← he]
    show keysA (entrySpec si yi years _ k).years = years
    unfold entrySpec
    rw [keysA_map, dedupFirst_eq_self hN]
  case hacc =>
    intro y hy
    show y ∈ keysA (zerosOf years)
    rw [zerosOf_keys]
    exact mem_dedupFirst.2 hy
  show sumValues (zerosOf years) + _ = _
  rw [zerosOf_sum, emFold_total]
  show _ = (zeroBucket years).total + _
  simp only [zeroBucket, Nat.zero_add]
  congr 1
  apply List.map_congr_left
  intro s hs
  exact subsOf_years_sum si yi years rows s hs

theorem td_years_sum (si yi : Nat) (years : List Int)
    (rows : List (List String)) :
    sumValues (mainResult si yi years rows).total_demandado.years =
      (mainResult si yi years rows).total_demandado.total := by
  rw [mainResult_td]
  show sumValues (processRows si yi years rows).totalByYear =
    (processRows si yi years rows).totalAll
  rw [processRows_eq]
  show sumValues (stateSpec si yi years _).totalByYear = _
  rw [totalByYear_sum si yi years (fun r hr => List.of_mem_filter hr)]
  rfl

theorem lookup_zerosOf {years : List Int} {y : Int} (hy : y ∈ years) :
    lookupA (zerosOf years) y = some 0 := by
  unfold zerosOf
  rw [lookupA_map, if_pos (mem_dedupFirst.2 hy)]

theorem foldl_skip_short (si yi : Nat) (years : List Int) :
    ∀ (rows : List (List String)) (st : RowState),
      rows.foldl (stepRow si yi years) st =
        (rows.filter (fun r => decide (max si yi < r.length))).foldl
          (stepRow si yi years) st := by
  intro rows
  induction rows with
  | nil =>
    intro st
    rfl
  | cons r t ih =>
    intro st
    rw [List.filter_cons]
    by_cases hl : max si yi < r.length
    · rw [if_pos (by simpa using hl)]
      rw [List.foldl_cons, List.foldl_cons, ih]
    · rw [if_neg (by simpa using hl)]
      have hle : r.length ≤ max si yi := by omega
      have hskip : stepRow si yi years st r = st := by
        unfold stepRow
        rw [if_pos hle]
      rw [List.foldl_cons, hskip, ih]

/-! ## The claims -/

/-- Claim C1, counterexample: the structure returned by
`process_enel_legalizacao_data` carries no `cancelados` bucket at all (the
claimed identity mentions `cancelados.total`, a key the function never
emits), here exhibited on a concrete one-row dataset. -/
theorem C1_counterexample :
    "cancelados" ∉ enelResultKeys (process_enel_legalizacao_data
      ⟨["Status", "ano Acionamento"], [["Concluído", "2024"]]⟩
      "Status" [2024]) := by
  decide

/-- Claim C1 (amended): for every input dataset and year list, the result of
`process_enel_legalizacao_data` satisfies
`total_demandado.total = concluidos.total + em_andamento.total.total` — the
conservation identity of the claim with the nonexistent `cancelados` bucket
removed.  Rows skipped before classification contribute to none of the
totals, and the function takes no status-exclusion filter. -/
theorem C1_theorem (data : SheetData) (status_column : String)
    (years : List Int) :
    (process_enel_legalizacao_data data status_column years).total_demandado.total =
      (process_enel_legalizacao_data data status_column years).concluidos.total +
        (process_enel_legalizacao_data data status_column years).em_andamento.total.total := by
  by_cases hempty : data.headers = [] ∨ data.values = []
  · rw [process_empty hempty]
    rfl
  · push_neg at hempty
    obtain ⟨h1, h2⟩ := hempty
    cases hs : resolveColumn status_column data.headers with
    | none =>
      rw [process_status_warn h1 h2 hs]
      rfl
    | some si =>
      cases hy : resolveYearColumn data.headers with
      | none =>
        rw [process_year_warn h1 h2 hs hy]
        rfl
      | some yi =>
        rw [process_main h1 h2 hs hy]
        exact mainResult_conservation si yi years data.values

/-- Claim C4, counterexample: a year cell `"2024.0"` is not parsed by the
aggregator — `int("2024.0")` raises, the row is skipped, and the dataset
totals zero although 2024 is requested (the claim says the row is counted
with year 2024). -/
theorem C4_counterexample :
    pyInt "2024.0" = none ∧
    (process_enel_legalizacao_data
      ⟨["Status", "ano Acionamento"], [["Concluído", "2024.0"]]⟩
      "Status" [2024]).total_demandado.total = 0 := by
  decide

/-- Claim C4 (amended): the year cell is parsed with Python `int()` on the
stripped cell: an integer literal such as `"2024"` yields its year, while a
float rendering such as `"2024.0"` is not parseable; whenever the year cell
fails to parse, the row loop leaves the accumulator untouched (the row is
skipped). -/
theorem C4_theorem (si yi : Nat) (years : List Int) (st : RowState)
    (row : List String) (h : pyInt (yearStrOf yi row) = none) :
    stepRow si yi years st row = st ∧
      pyInt "2024" = some 2024 ∧ pyInt "2024.0" = none := by
  refine ⟨?_, by decide, by decide⟩
  rw [stepRow_eq]
  have hc : rowCounted si yi years row = false := by
    unfold rowCounted
    rw [h]
    simp
  simp [hc]

theorem C4_witness :
    stepRow 0 1 [2024] (initState [2024]) ["Concluído", "2024.0"] =
      initState [2024] ∧
    pyInt "2024" = some 2024 ∧ pyInt "2024.0" = none :=
  C4_theorem 0 1 [2024] (initState [2024]) ["Concluído", "2024.0"] (by decide)

/-- Claim C5, counterexample: with a dataset that has headers but no data
rows, the zero-data early return fires first, so a requested status column
absent from the headers yields a result without any `warning` key —
contradicting the claim, which requires the warning whenever the column
cannot be resolved. -/
theorem C5_counterexample :
    resolveColumn "Status" ["Outra"] = none ∧
    (process_enel_legalizacao_data ⟨["Outra"], []⟩ "Status" [2024]).warning =
      none := by
  decide

/-- Claim C5 (amended): provided the dataset is nonempty (at least one header
and one data row), an unresolvable status column — and, when the status
column resolves, an unresolvable `'ano Acionamento'` column — makes the
aggregator return, without raising, the zero-data result shape augmented
with a `warning` naming the missing column, the full header list in
`available_columns`, and the requested column name; `statusWarnResult` /
`yearWarnResult` are by definition `emptyResult` with exactly those fields
added. -/
theorem C5_theorem (data : SheetData) (col : String) (years : List Int)
    (h1 : data.headers ≠ []) (h2 : data.values ≠ []) :
    (resolveColumn col data.headers = none →
      process_enel_legalizacao_data data col years =
        statusWarnResult col data.headers years) ∧
    (∀ si : Nat, resolveColumn col data.headers = some si →
      resolveYearColumn data.headers = none →
      process_enel_legalizacao_data data col years =
        yearWarnResult data.headers years) ∧
    (statusWarnResult col data.headers years).warning = some (warnMsg col) ∧
    (statusWarnResult col data.headers years).available_columns =
      some data.headers ∧
    (yearWarnResult data.headers years).warning =
      some (warnMsg "ano Acionamento") ∧
    (yearWarnResult data.headers years).available_columns = some data.headers :=
  ⟨fun h => process_status_warn h1 h2 h,
   fun _ hs hy => process_year_warn h1 h2 hs hy,
   rfl, rfl, rfl, rfl⟩

theorem C5_witness :
    process_enel_legalizacao_data ⟨["Outra"], [["x"]]⟩ "Status" [2024] =
      statusWarnResult "Status" ["Outra"] [2024] :=
  ( C5_theorem ⟨["Outra"], [["x"]]⟩ "Status" [2024] (by decide) (by decide)).1
    (by decide)

/-- Claim C6: on an empty dataset (no headers or no data rows) the result has
`total_demandado.percentage = 100.0`, every other percentage `0.0`, a zero
count for each requested year in every bucket, and no subcategories. -/
theorem C6_theorem (data : SheetData) (col : String) (years : List Int)
    (h : data.headers = [] ∨ data.values = []) :
    (process_enel_legalizacao_data data col years).total_demandado.percentage = 100 ∧
    (process_enel_legalizacao_data data col years).concluidos.percentage = 0 ∧
    (process_enel_legalizacao_data data col years).em_andamento.total.percentage = 0 ∧
    (process_enel_legalizacao_data data col years).em_andamento.subcategorias = [] ∧
    ∀ y ∈ years,
      lookupA (process_enel_legalizacao_data data col years).total_demandado.years y = some 0 ∧
      lookupA (process_enel_legalizacao_data data col years).concluidos.years y = some 0 ∧
      lookupA (process_enel_legalizacao_data data col years).em_andamento.total.years y = some 0 := by
  rw [process_empty h]
  exact ⟨rfl, rfl, rfl, rfl, fun y hy =>
    ⟨lookup_zerosOf hy, lookup_zerosOf hy, lookup_zerosOf hy⟩⟩

theorem C6_witness :
    (process_enel_legalizacao_data ⟨[], []⟩ "Status" [2024]).total_demandado.percentage = 100 ∧
    (process_enel_legalizacao_data ⟨[], []⟩ "Status" [2024]).concluidos.percentage = 0 ∧
    (process_enel_legalizacao_data ⟨[], []⟩ "Status" [2024]).em_andamento.total.percentage = 0 ∧
    (process_enel_legalizacao_data ⟨[], []⟩ "Status" [2024]).em_andamento.subcategorias = [] ∧
    lookupA (process_enel_legalizacao_data ⟨[], []⟩ "Status" [2024]).total_demandado.years 2024 = some 0 := by
  have h := C6_theorem ⟨[], []⟩ "Status" [2024] (Or.inl rfl)
  exact ⟨h.1, h.2.1, h.2.2.1, h.2.2.2.1, (h.2.2.2.2 2024 (by decide)).1⟩

/-- Claim C9: the row loop of `process_enel_legalizacao_data` guards every
cell access with the length check `len(row) <= max(status_idx, year_idx)`:
a row too short to hold both required cells leaves the accumulator untouched,
and the whole loop computes the same accumulator as if all such rows were
removed beforehand — so no row is ever indexed out of range and short rows
contribute to no count. -/
theorem C9_theorem (si yi : Nat) (years : List Int) (st : RowState)
    (row : List String) (rows : List (List String))
    (h : row.length ≤ max si yi) :
    stepRow si yi years st row = st ∧
    processRows si yi years rows =
      processRows si yi years
        (rows.filter (fun r => decide (max si yi < r.length))) := by
  constructor
  · unfold stepRow
    rw [if_pos h]
  · unfold processRows
    exact foldl_skip_short si yi years rows (initState years)

theorem C9_witness :
    stepRow 0 1 [2024] (initState [2024]) ["Concluído"] = initState [2024] ∧
    processRows 0 1 [2024] [["Concluído"], ["Concluído", "2024"]] =
      processRows 0 1 [2024]
        ([["Concluído"], ["Concluído", "2024"]].filter
          (fun r => decide (max 0 1 < r.length))) :=
  C9_theorem 0 1 [2024] (initState [2024]) ["Concluído"]
    [["Concluído"], ["Concluído", "2024"]] (by decide)

/-- Claim C2, counterexample: with the duplicated requested year list
`[2024, 2024]`, the classification stage's `for year in years` loop adds the
concluded per-year count twice, so `concluidos.years` sums to 2 while
`concluidos.total` is 1. -/
theorem C2_counterexample :
    sumValues (process_enel_legalizacao_data
      ⟨["Status", "ano Acionamento"], [["Concluído", "2024"]]⟩
      "Status" [2024, 2024]).concluidos.years = 2 ∧
    (process_enel_legalizacao_data
      ⟨["Status", "ano Acionamento"], [["Concluído", "2024"]]⟩
      "Status" [2024, 2024]).concluidos.total = 1 := by
  decide

/-- Claim C2 (amended): provided the requested year list contains no
duplicates, every bucket of the result of `process_enel_legalizacao_data`
(`total_demandado`, `concluidos`, `em_andamento.total`) and every
`em_andamento` subcategory satisfies: the sum of its per-year counts equals
its total. -/
theorem C2_theorem (data : SheetData) (col : String) (years : List Int)
    (hN : years.Nodup) :
    sumValues (process_enel_legalizacao_data data col years).total_demandado.years =
      (process_enel_legalizacao_data data col years).total_demandado.total ∧
    sumValues (process_enel_legalizacao_data data col years).concluidos.years =
      (process_enel_legalizacao_data data col years).concluidos.total ∧
    sumValues (process_enel_legalizacao_data data col years).em_andamento.total.years =
      (process_enel_legalizacao_data data col years).em_andamento.total.total ∧
    ∀ s ∈ (process_enel_legalizacao_data data col years).em_andamento.subcategorias,
      sumValues s.years = s.total := by
  by_cases hempty : data.headers = [] ∨ data.values = []
  · rw [process_empty hempty]
    refine ⟨zerosOf_sum years, zerosOf_sum years, zerosOf_sum years, ?_⟩
    intro s hs
    simp [emptyResult] at hs
  · push_neg at hempty
    obtain ⟨h1, h2⟩ := hempty
    cases hs : resolveColumn col data.headers with
    | none =>
      rw [process_status_warn h1 h2 hs]
      refine ⟨zerosOf_sum years, zerosOf_sum years, zerosOf_sum years, ?_⟩
      intro s hsub
      simp [statusWarnResult, emptyResult] at hsub
    | some si =>
      cases hy : resolveYearColumn data.headers with
      | none =>
        rw [process_year_warn h1 h2 hs hy]
        refine ⟨zerosOf_sum years, zerosOf_sum years, zerosOf_sum years, ?_⟩
        intro s hsub
        simp [yearWarnResult, emptyResult] at hsub
      | some yi =>
        rw [process_main h1 h2 hs hy]
        refine ⟨td_years_sum si yi years data.values, ?_, ?_, ?_⟩
        · rw [mainResult_concl_years, mainResult_concl_total]
          exact conclOf_years_sum si yi hN data.values
        · rw [mainResult_em_years, mainResult_em_total]
          exact emTotalOf_years_sum si yi hN data.values
        · exact mainResult_subs_pointwise si yi years data.values
            (fun _ ys tot => sumValues ys = tot)
            (fun s hsub => subsOf_years_sum si yi years data.values s hsub)

theorem getD_mem_of_pos {α : Type} {l : List α} (h : 0 < l.length) (d : α) :
    l.getD 0 d ∈ l := by
  cases l with
  | nil => simp at h
  | cons x t => simp

theorem C2_witness :
    sumValues (process_enel_legalizacao_data
      ⟨["Status", "ano Acionamento"],
        [["Em análise", "2024"], ["Concluído", "2024"]]⟩
      "Status" [2024, 2025]).total_demandado.years =
      (process_enel_legalizacao_data
        ⟨["Status", "ano Acionamento"],
          [["Em análise", "2024"], ["Concluído", "2024"]]⟩
        "Status" [2024, 2025]).total_demandado.total ∧
    sumValues (((process_enel_legalizacao_data
      ⟨["Status", "ano Acionamento"],
        [["Em análise", "2024"], ["Concluído", "2024"]]⟩
      "Status" [2024, 2025]).em_andamento.subcategorias.getD 0
        ⟨"", [], 0, 0⟩).years) =
      ((process_enel_legalizacao_data
        ⟨["Status", "ano Acionamento"],
          [["Em análise", "2024"], ["Concluído", "2024"]]⟩
        "Status" [2024, 2025]).em_andamento.subcategorias.getD 0
          ⟨"", [], 0, 0⟩).total := by
  have h := C2_theorem
    ⟨["Status", "ano Acionamento"],
      [["Em análise", "2024"], ["Concluído", "2024"]]⟩
    "Status" [2024, 2025] (by decide)
  exact ⟨h.1, h.2.2.2 _ (getD_mem_of_pos (by decide) _)⟩

theorem findIdxNorm_some_iff (target : String) :
    ∀ (headers : List String) (i : Nat),
      findIdxNorm target headers = some i ↔
        i < headers.length ∧ pyLower (pyStrip (headers.getD i "")) = target ∧
        ∀ j, j < i → pyLower (pyStrip (headers.getD j "")) ≠ target := by
  intro headers
  induction headers with
  | nil =>
    intro i
    simp [findIdxNorm]
  | cons h t ih =>
    intro i
    by_cases hh : pyLower (pyStrip h) = target
    · constructor
      · intro he
        unfold findIdxNorm at he
        rw [if_pos hh] at he
        have hi0 : i = 0 := (Option.some.injEq 0 i ▸ he).symm
        subst hi0
        exact ⟨by simp, by simpa using hh, fun j hj => absurd hj (by omega)⟩
      · rintro ⟨hi, hget, hmin⟩
        unfold findIdxNorm
        rw [if_pos hh]
        by_cases hi0 : i = 0
        · rw [hi0]
        · have hpos : 0 < i := Nat.pos_of_ne_zero hi0
          exact absurd (by simpa using hh) (hmin 0 hpos)
    · constructor
      · intro he
        unfold findIdxNorm at he
        rw [if_neg hh] at he
        rcases Option.map_eq_some'.1 he with ⟨i0, hi0, hieq⟩
        subst hieq
        rcases (ih i0).1 hi0 with ⟨hlen, hget, hmin⟩
        refine ⟨by simpa using hlen, by simpa using hget, ?_⟩
        intro j hj
        cases j with
        | zero => simpa using hh
        | succ j0 =>
          have := hmin j0 (by omega)
          simpa using this
      · rintro ⟨hi, hget, hmin⟩
        unfold findIdxNorm
        rw [if_neg hh]
        cases i with
        | zero => exact absurd (by simpa using hget) hh
        | succ i0 =>
          have ht : findIdxNorm target t = some i0 := by
            refine (ih i0).2 ⟨by simpa using hi, by simpa using hget, ?_⟩
            intro j hj
            have := hmin (j + 1) (by omega)
            simpa using this
          rw [ht]
          rfl

theorem findIdxNorm_none_iff (target : String) :
    ∀ (headers : List String),
      findIdxNorm target headers = none ↔
        ∀ j, j < headers.length →
          pyLower (pyStrip (headers.getD j "")) ≠ target := by
  intro headers
  induction headers with
  | nil => simp [findIdxNorm]
  | cons h t ih =>
    by_cases hh : pyLower (pyStrip h) = target
    · rw [show findIdxNorm target (h :: t) =
          (if pyLower (pyStrip h) = target then some 0
           else (findIdxNorm target t).map (· + 1)) from rfl, if_pos hh]
      constructor
      · intro he
        exact absurd he (by simp)
      · intro hall
        exact absurd (by simpa using hh) (hall 0 (by simp))
    · rw [show findIdxNorm target (h :: t) =
          (if pyLower (pyStrip h) = target then some 0
           else (findIdxNorm target t).map (· + 1)) from rfl, if_neg hh]
      rw [Option.map_eq_none', ih]
      constructor
      · intro hall j hj
        cases j with
        | zero => simpa using hh
        | succ j0 =>
          have := hall j0 (by simp at hj; omega)
          simpa using this
      · intro hall j hj
        have := hall (j + 1) (by simp; omega)
        simpa using this

/-- Claim C7: column resolution trims and lowercases both the requested name
and every header and returns the first index with exact equality on the
normalised strings (so header `" Status "` resolves for `"status"`); there is
no partial or fuzzy matching, and when no header matches, the outcome is the
distinguished `none` rather than any default index. -/
theorem C7_theorem :
    (∀ (headers : List String) (name : String) (i : Nat),
      resolveColumn name headers = some i ↔
        i < headers.length ∧
        pyLower (pyStrip (headers.getD i "")) = pyLower (pyStrip name) ∧
        ∀ j, j < i →
          pyLower (pyStrip (headers.getD j "")) ≠ pyLower (pyStrip name)) ∧
    (∀ (headers : List String) (name : String),
      resolveColumn name headers = none ↔
        ∀ j, j < headers.length →
          pyLower (pyStrip (headers.getD j "")) ≠ pyLower (pyStrip name)) ∧
    resolveColumn "status" [" Status "] = some 0 :=
  ⟨fun headers name i => findIdxNorm_some_iff (pyLower (pyStrip name)) headers i,
   fun headers name => findIdxNorm_none_iff (pyLower (pyStrip name)) headers,
   by decide⟩

/-- Claim C3, counterexample: two counted rows whose statuses normalise
identically (`"EM  ANÁLISE"` and `"em análise"`) are merged into a single
subcategory named after the first row's text; the second row is counted
(`total_demandado.total = 2`) yet no subcategory bears its original status
text, contradicting the claim that each non-concluded row is counted under a
subcategory named by its own original status text. -/
theorem C3_counterexample :
    (process_enel_legalizacao_data
      ⟨["Status", "ano Acionamento"],
        [["EM  ANÁLISE", "2024"], ["em análise", "2024"]]⟩
      "Status" [2024]).em_andamento.subcategorias.map Subcat.name =
        ["EM  ANÁLISE"] ∧
    rowCounted 0 1 [2024] ["em análise", "2024"] = true ∧
    (process_enel_legalizacao_data
      ⟨["Status", "ano Acionamento"],
        [["EM  ANÁLISE", "2024"], ["em análise", "2024"]]⟩
      "Status" [2024]).total_demandado.total = 2 := by
  decide

theorem filter_eq_length_one {α : Type} [DecidableEq α] {l : List α}
    (hN : l.Nodup) {a : α} (ha : a ∈ l) :
    (l.filter (fun x => decide (x = a))).length = 1 := by
  induction l with
  | nil => simp at ha
  | cons x t ih =>
    rcases List.nodup_cons.1 hN with ⟨hx, hnt⟩
    by_cases h : x = a
    · subst h
      have hz : t.filter (fun y => decide (y = x)) = [] := by
        rw [List.filter_eq_nil_iff]
        intro y hy
        simp only [decide_eq_true_eq]
        intro e
        exact hx (e ▸ hy)
      simp [List.filter_cons, hz]
    · have ha' : a ∈ t := by
        rcases List.mem_cons.1 ha with h1 | h1
        · exact absurd h1.symm h
        · exact h1
      simp [List.filter_cons, h, ih hnt ha']

theorem subs_filter_name_length (si yi : Nat) (years : List Int)
    (rows : List (List String)) (n : String) :
    (((mainResult si yi years rows).em_andamento.subcategorias).filter
      (fun s => decide (pyNormalize s.name = n))).length =
    ((subsOf si yi years rows).filter
      (fun s => decide (pyNormalize s.name = n))).length := by
  unfold mainResult
  by_cases h : 0 < (processRows si yi years rows).totalAll
  · simp only [h, if_true]
    rw [filter_of_map, List.length_map]
  · simp only [h, if_false]

theorem subsOf_key_count (si yi : Nat) (years : List Int)
    (rows : List (List String)) {n : String}
    (hn : n ∈ (rows.filter (rowCounted si yi years)).map (normOfRow si))
    (hnc : containsSub n "concluído" = false) :
    ((subsOf si yi years rows).filter
      (fun s => decide (pyNormalize s.name = n))).length = 1 := by
  rw [subsOf_eq_rows, filter_of_map, List.length_map]
  have hcongr : ((dedupFirst ((rows.filter (rowCounted si yi years)).map
      (normOfRow si))).filter (fun k => !containsSub k "concluído")).filter
        (fun k => decide (pyNormalize (mkSubcat (entrySpec si yi years
          (rows.filter (rowCounted si yi years)) k)).name = n)) =
      ((dedupFirst ((rows.filter (rowCounted si yi years)).map
        (normOfRow si))).filter (fun k => !containsSub k "concluído")).filter
          (fun k => decide (k = n)) := by
    apply List.filter_congr
    intro k hk
    have hkmem : k ∈ (rows.filter (rowCounted si yi years)).map (normOfRow si) :=
      mem_dedupFirst.1 (List.mem_of_mem_filter hk)
    have : pyNormalize (mkSubcat (entrySpec si yi years
        (rows.filter (rowCounted si yi years)) k)).name = k := norm_origOf hkmem
    rw [this]
  rw [hcongr]
  apply filter_eq_length_one ((nodup_dedupFirst _).filter _)
  rw [List.mem_filter]
  exact ⟨mem_dedupFirst.2 hn, by rw [hnc]; rfl⟩

theorem subsOf_entry_facts (si yi : Nat) (years : List Int)
    (rows : List (List String)) :
    ∀ s ∈ subsOf si yi years rows,
      s.total = ((rows.filter (rowCounted si yi years)).filter
        (fun x => decide (normOfRow si x = pyNormalize s.name))).length ∧
      ((rows.filter (rowCounted si yi years)).find?
        (fun x => decide (normOfRow si x = pyNormalize s.name))).map
          (statusValOf si) = some s.name ∧
      containsSub (pyNormalize s.name) "concluído" = false := by
  intro s hsub
  rw [subsOf_eq_rows] at hsub
  rcases List.mem_map.1 hsub with ⟨k, hk, he⟩
  have hkmem : k ∈ (rows.filter (rowCounted si yi years)).map (normOfRow si) :=
    mem_dedupFirst.1 (List.mem_of_mem_filter hk)
  have hname : pyNormalize s.name = k := by
    rw [← he]
    exact norm_origOf hkmem
  refine ⟨?_, ?_, ?_⟩
  · rw [hname, ← he]
    rfl
  · rw [hname]
    rcases find?_norm_some hkmem with ⟨r0, hr0⟩
    rw [hr0, ← he]
    show some (statusValOf si r0) = some (origOf si _ k)
    unfold origOf
    rw [hr0]
  · rw [hname]
    have := (List.mem_filter.1 hk).2
    simpa using this

/-- Claim C3 (amended): on the main path, every counted row is classified
into exactly one bucket: the `concluidos` total counts exactly the counted
rows whose normalised status contains `"concluído"`, the `em_andamento`
total counts exactly the remaining counted rows, a counted non-concluded row
has exactly one subcategory keyed by its normalised status, and every
subcategory counts exactly the counted rows of its normalised status, is
named by the stripped status text of the *first* counted row of that status
class (not necessarily the row's own text), and is never a concluded
status. -/
theorem C3_theorem (data : SheetData) (col : String) (years : List Int)
    {si yi : Nat}
    (h1 : data.headers ≠ []) (h2 : data.values ≠ [])
    (hs : resolveColumn col data.headers = some si)
    (hy : resolveYearColumn data.headers = some yi)
    (row : List String) (hrow : row ∈ data.values)
    (hc : rowCounted si yi years row = true) :
    (process_enel_legalizacao_data data col years).concluidos.total =
      ((data.values.filter (rowCounted si yi years)).filter
        (fun x => containsSub (normOfRow si x) "concluído")).length ∧
    (process_enel_legalizacao_data data col years).em_andamento.total.total =
      ((data.values.filter (rowCounted si yi years)).filter
        (fun x => !containsSub (normOfRow si x) "concluído")).length ∧
    (containsSub (normOfRow si row) "concluído" = false →
      (((process_enel_legalizacao_data data col years).em_andamento.subcategorias).filter
        (fun s => decide (pyNormalize s.name = normOfRow si row))).length = 1) ∧
    ∀ s ∈ (process_enel_legalizacao_data data col years).em_andamento.subcategorias,
      s.total = ((data.values.filter (rowCounted si yi years)).filter
        (fun x => decide (normOfRow si x = pyNormalize s.name))).length ∧
      ((data.values.filter (rowCounted si yi years)).find?
        (fun x => decide (normOfRow si x = pyNormalize s.name))).map
          (statusValOf si) = some s.name ∧
      containsSub (pyNormalize s.name) "concluído" = false := by
  rw [process_main h1 h2 hs hy]
  refine ⟨?_, ?_, ?_, ?_⟩
  · rw [mainResult_concl_total]
    exact conclOf_total_rows si yi years data.values
  · rw [mainResult_em_total]
    exact emTotalOf_total_rows si yi years data.values
  · intro hnc
    rw [subs_filter_name_length]
    exact subsOf_key_count si yi years data.values
      (List.mem_map_of_mem _ (List.mem_filter.2 ⟨hrow, hc⟩)) hnc
  · exact mainResult_subs_pointwise si yi years data.values
      (fun name ys tot =>
        tot = ((data.values.filter (rowCounted si yi years)).filter
          (fun x => decide (normOfRow si x = pyNormalize name))).length ∧
        ((data.values.filter (rowCounted si yi years)).find?
          (fun x => decide (normOfRow si x = pyNormalize name))).map
            (statusValOf si) = some name ∧
        containsSub (pyNormalize name) "concluído" = false)
      (subsOf_entry_facts si yi years data.values)

theorem C3_witness :
    (process_enel_legalizacao_data
      ⟨["Status", "ano Acionamento"],
        [["Em análise", "2024"], ["Concluído", "2024"]]⟩
      "Status" [2024]).concluidos.total =
      ((([["Em análise", "2024"], ["Concluído", "2024"]] :
          List (List String)).filter (rowCounted 0 1 [2024])).filter
        (fun x => containsSub (normOfRow 0 x) "concluído")).length ∧
    (((process_enel_legalizacao_data
      ⟨["Status", "ano Acionamento"],
        [["Em análise", "2024"], ["Concluído", "2024"]]⟩
      "Status" [2024]).em_andamento.subcategorias).filter
        (fun s => decide (pyNormalize s.name =
          normOfRow 0 ["Em análise", "2024"]))).length = 1 ∧
    ((process_enel_legalizacao_data
      ⟨["Status", "ano Acionamento"],
        [["Em análise", "2024"], ["Concluído", "2024"]]⟩
      "Status" [2024]).em_andamento.subcategorias.getD 0
        ⟨"", [], 0, 0⟩).total =
      ((([["Em análise", "2024"], ["Concluído", "2024"]] :
          List (List String)).filter (rowCounted 0 1 [2024])).filter
        (fun x => decide (normOfRow 0 x =
          pyNormalize ((process_enel_legalizacao_data
            ⟨["Status", "ano Acionamento"],
              [["Em análise", "2024"], ["Concluído", "2024"]]⟩
            "Status" [2024]).em_andamento.subcategorias.getD 0
              ⟨"", [], 0, 0⟩).name))).length := by
  have h := @ C3_theorem
    ⟨["Status", "ano Acionamento"],
      [["Em análise", "2024"], ["Concluído", "2024"]]⟩
    "Status" [2024] 0 1 (by decide) (by decide) (by decide) (by decide)
    ["Em análise", "2024"] (by decide) (by decide)
  exact ⟨h.1, h.2.2.1 (by decide),
    (h.2.2.2 _ (getD_mem_of_pos (by decide) _)).1⟩

/-! ## Ordering lemmas for the subcategory list -/

theorem idxOf_append_mem {α : Type} [DecidableEq α] {l : List α} {a : α}
    (h : a ∈ l) (l' : List α) : idxOf (l ++ l') a = idxOf l a := by
  induction l with
  | nil => simp at h
  | cons x t ih =>
    by_cases hx : x = a
    · simp [idxOf, hx]
    · rcases List.mem_cons.1 h with h1 | h1
      · exact absurd h1.symm hx
      · simp [idxOf, hx, ih h1]

theorem idxOf_append_not_mem {α : Type} [DecidableEq α] {l : List α} {a : α}
    (h : a ∉ l) (l' : List α) :
    idxOf (l ++ l') a = l.length + idxOf l' a := by
  induction l with
  | nil => simp
  | cons x t ih =>
    have hx : ¬x = a := fun e => h (e ▸ List.mem_cons_self x t)
    simp [idxOf, hx, ih (fun hm => h (List.mem_cons_of_mem x hm))]
    omega

theorem idxOf_get {α : Type} [DecidableEq α] :
    ∀ {l : List α}, l.Nodup → ∀ (i : Nat) (h : i < l.length),
      idxOf l (l.get ⟨i, h⟩) = i := by
  intro l
  induction l with
  | nil =>
    intro _ i h
    simp at h
  | cons x t ih =>
    intro hN i h
    rcases List.nodup_cons.1 hN with ⟨hx, hnt⟩
    cases i with
    | zero => simp [idxOf]
    | succ i0 =>
      have h0 : i0 < t.length := by simpa using h
      have hg : (x :: t).get ⟨i0 + 1, h⟩ = t.get ⟨i0, h0⟩ := rfl
      rw [hg]
      have hne : ¬x = t.get ⟨i0, h0⟩ := fun e => hx (e ▸ t.get_mem i0 h0)
      have hne' : ¬x = t[i0] := by simpa using hne
      have ihg : idxOf t t[i0] = i0 := by simpa using ih hnt i0 h0
      simp [idxOf, hne', ihg]

theorem filter_idxOf_mono {α : Type} [DecidableEq α] :
    ∀ {l : List α}, l.Nodup → ∀ (q : α → Bool) {x y : α},
      x ∈ l.filter q → y ∈ l.filter q →
      idxOf (l.filter q) x < idxOf (l.filter q) y → idxOf l x < idxOf l y := by
  intro l
  induction l with
  | nil =>
    intro _ q x y hx
    simp at hx
  | cons h0 t ih =>
    intro hN q x y hx hy h
    rcases List.nodup_cons.1 hN with ⟨h0t, hnt⟩
    by_cases hq : q h0 = true
    · rw [List.filter_cons, if_pos (by simpa using hq)] at hx hy h
      by_cases hxh : h0 = x
      · have hyh : ¬h0 = y := by
          intro e
          rw [show idxOf (h0 :: t.filter q) y = 0 by simp [idxOf, e]] at h
          rw [show idxOf (h0 :: t.filter q) x = 0 by simp [idxOf, hxh]] at h
          omega
        have hxy : ¬x = y := fun e => hyh (hxh.trans e)
        simp [idxOf, hxh, hyh, hxy]
      · by_cases hyh : h0 = y
        · rw [show idxOf (h0 :: t.filter q) y = 0 by simp [idxOf, hyh]] at h
          omega
        · rw [show idxOf (h0 :: t.filter q) x =
              idxOf (t.filter q) x + 1 by simp [idxOf, hxh]] at h
          rw [show idxOf (h0 :: t.filter q) y =
              idxOf (t.filter q) y + 1 by simp [idxOf, hyh]] at h
          have hx' : x ∈ t.filter q := by
            rcases List.mem_cons.1 hx with h1 | h1
            · exact absurd h1.symm hxh
            · exact h1
          have hy' : y ∈ t.filter q := by
            rcases List.mem_cons.1 hy with h1 | h1
            · exact absurd h1.symm hyh
            · exact h1
          have := ih hnt q hx' hy' (by omega)
          simp [idxOf, hxh, hyh]
          omega
    · rw [List.filter_cons, if_neg (by simpa using hq)] at hx hy h
      have hx' : x ∈ t := List.mem_of_mem_filter hx
      have hy' : y ∈ t := List.mem_of_mem_filter hy
      have hxh : ¬h0 = x := fun e => h0t (e ▸ hx')
      have hyh : ¬h0 = y := fun e => h0t (e ▸ hy')
      have := ih hnt q hx hy h
      simp [idxOf, hxh, hyh]
      omega

theorem dedupFirst_idxOf_mono {α : Type} [DecidableEq α] :
    ∀ {l : List α} {a b : α}, a ∈ l → b ∈ l →
      idxOf (dedupFirst l) a < idxOf (dedupFirst l) b →
      idxOf l a < idxOf l b := by
  intro l
  induction l using List.reverseRecOn with
  | nil =>
    intro a b ha
    simp at ha
  | append_singleton t x ih =>
    intro a b ha hb h
    rw [dedupFirst_append_single] at h
    unfold insD at h
    by_cases hx : x ∈ dedupFirst t
    · rw [if_pos hx] at h
      have hx' : x ∈ t := mem_dedupFirst.1 hx
      have ha' : a ∈ t := by
        rcases List.mem_append.1 ha with h1 | h1
        · exact h1
        · have : a = x := by simpa using h1
          exact this ▸ hx'
      have hb' : b ∈ t := by
        rcases List.mem_append.1 hb with h1 | h1
        · exact h1
        · have : b = x := by simpa using h1
          exact this ▸ hx'
      rw [idxOf_append_mem ha', idxOf_append_mem hb']
      exact ih ha' hb' h
    · rw [if_neg hx] at h
      have hxt : x ∉ t := fun hm => hx (mem_dedupFirst.2 hm)
      by_cases hax : a = x
      · subst hax
        rw [idxOf_append_not_mem hx] at h
        rcases List.mem_append.1 hb with h1 | h1
        · have hbD : b ∈ dedupFirst t := mem_dedupFirst.2 h1
          rw [idxOf_append_mem hbD] at h
          have := idxOf_lt_length hbD
          simp [idxOf] at h
          omega
        · have hba : b = a := by simpa using h1
          subst hba
          rw [idxOf_append_not_mem hx] at h
          omega
      · have ha' : a ∈ t := by
          rcases List.mem_append.1 ha with h1 | h1
          · exact h1
          · exact absurd (by simpa using h1) hax
        by_cases hbx : b = x
        · subst hbx
          rw [idxOf_append_mem ha', idxOf_append_not_mem hxt]
          have := idxOf_lt_length ha'
          simp [idxOf]
          omega
        · have hb' : b ∈ t := by
            rcases List.mem_append.1 hb with h1 | h1
            · exact h1
            · exact absurd (by simpa using h1) hbx
          rw [idxOf_append_mem (mem_dedupFirst.2 ha'),
            idxOf_append_mem (mem_dedupFirst.2 hb')] at h
          rw [idxOf_append_mem ha', idxOf_append_mem hb']
          exact ih ha' hb' h

theorem mainResult_subs_keys (si yi : Nat) (years : List Int)
    (rows : List (List String)) :
    ((mainResult si yi years rows).em_andamento.subcategorias).map
      (fun s => pyNormalize s.name) =
    (dedupFirst ((rows.filter (rowCounted si yi years)).map
      (normOfRow si))).filter (fun k => !containsSub k "concluído") := by
  have hbase : (subsOf si yi years rows).map (fun s => pyNormalize s.name) =
      (dedupFirst ((rows.filter (rowCounted si yi years)).map
        (normOfRow si))).filter (fun k => !containsSub k "concluído") := by
    rw [subsOf_eq_rows, List.map_map]
    have : ∀ k ∈ (dedupFirst ((rows.filter (rowCounted si yi years)).map
        (normOfRow si))).filter (fun k => !containsSub k "concluído"),
        ((fun s => pyNormalize s.name) ∘ (fun k => mkSubcat (entrySpec si yi years
          (rows.filter (rowCounted si yi years)) k))) k = k := by
      intro k hk
      exact norm_origOf (mem_dedupFirst.1 (List.mem_of_mem_filter hk))
    rw [List.map_congr_left this]
    exact List.map_id' _
  unfold mainResult
  by_cases h : 0 < (processRows si yi years rows).totalAll
  · simp only [h, if_true]
    rw [List.map_map, ← hbase]
    rfl
  · simp only [h, if_false]
    exact hbase

/-- Claim C8: the order of `em_andamento.subcategorias` is the insertion
order of first occurrence of each distinct normalised non-concluded status
in the counted-row sequence (not sorted order): if status `a` first occurs
before status `b` among the counted rows, then `a`'s subcategory precedes
`b`'s in the output list. -/
theorem C8_theorem (data : SheetData) (col : String) (years : List Int)
    {si yi : Nat}
    (h1 : data.headers ≠ []) (h2 : data.values ≠ [])
    (hs : resolveColumn col data.headers = some si)
    (hy : resolveYearColumn data.headers = some yi)
    (i j : Nat)
    (hi : i < (process_enel_legalizacao_data data col
      years).em_andamento.subcategorias.length)
    (hj : j < (process_enel_legalizacao_data data col
      years).em_andamento.subcategorias.length)
    (a b : String)
    (ha : pyNormalize (((process_enel_legalizacao_data data col
      years).em_andamento.subcategorias.getD i ⟨"", [], 0, 0⟩).name) = a)
    (hb : pyNormalize (((process_enel_legalizacao_data data col
      years).em_andamento.subcategorias.getD j ⟨"", [], 0, 0⟩).name) = b)
    (horder : idxOf ((data.values.filter (rowCounted si yi years)).map
        (normOfRow si)) a <
      idxOf ((data.values.filter (rowCounted si yi years)).map
        (normOfRow si)) b) :
    i < j := by
  rw [process_main h1 h2 hs hy] at hi hj ha hb
  have hK := mainResult_subs_keys si yi years data.values
  have hKlen : ((mainResult si yi years data.values).em_andamento.subcategorias.map
      (fun s => pyNormalize s.name)).length =
      (mainResult si yi years data.values).em_andamento.subcategorias.length :=
    List.length_map _ _
  have hKi : i < ((mainResult si yi years data.values).em_andamento.subcategorias.map
      (fun s => pyNormalize s.name)).length := by omega
  have hKj : j < ((mainResult si yi years data.values).em_andamento.subcategorias.map
      (fun s => pyNormalize s.name)).length := by omega
  have hKa : ((mainResult si yi years data.values).em_andamento.subcategorias.map
      (fun s => pyNormalize s.name)).get ⟨i, hKi⟩ = a := by
    rw [← ha, List.getD_eq_getElem _ _ hi]
    simp
  have hKb : ((mainResult si yi years data.values).em_andamento.subcategorias.map
      (fun s => pyNormalize s.name)).get ⟨j, hKj⟩ = b := by
    rw [← hb, List.getD_eq_getElem _ _ hj]
    simp
  have hNodup : ((mainResult si yi years data.values).em_andamento.subcategorias.map
      (fun s => pyNormalize s.name)).Nodup := by
    rw [hK]
    exact (nodup_dedupFirst _).filter _
  by_contra hij
  push_neg at hij
  rcases Nat.lt_or_ge j i with hji | hji
  · -- j strictly before i in the list, so b's key comes first: contradiction
    have hidxa : idxOf ((mainResult si yi years
        data.values).em_andamento.subcategorias.map
          (fun s => pyNormalize s.name)) a = i := by
      rw [← hKa]
      exact idxOf_get hNodup i hKi
    have hidxb : idxOf ((mainResult si yi years
        data.values).em_andamento.subcategorias.map
          (fun s => pyNormalize s.name)) b = j := by
      rw [← hKb]
      exact idxOf_get hNodup j hKj
    have hamem : a ∈ ((mainResult si yi years
        data.values).em_andamento.subcategorias.map
          (fun s => pyNormalize s.name)) := by
      rw [← hKa]
      exact List.get_mem _ _ _
    have hbmem : b ∈ ((mainResult si yi years
        data.values).em_andamento.subcategorias.map
          (fun s => pyNormalize s.name)) := by
      rw [← hKb]
      exact List.get_mem _ _ _
    rw [hK] at hidxa hidxb hamem hbmem
    have hks : idxOf (dedupFirst ((data.values.filter
        (rowCounted si yi years)).map (normOfRow si))) b <
        idxOf (dedupFirst ((data.values.filter
          (rowCounted si yi years)).map (normOfRow si))) a :=
      filter_idxOf_mono (nodup_dedupFirst _) _ hbmem hamem (by omega)
    have hnorm : idxOf ((data.values.filter (rowCounted si yi years)).map
        (normOfRow si)) b <
        idxOf ((data.values.filter (rowCounted si yi years)).map
          (normOfRow si)) a :=
      dedupFirst_idxOf_mono
        (mem_dedupFirst.1 (List.mem_of_mem_filter hbmem))
        (mem_dedupFirst.1 (List.mem_of_mem_filter hamem)) hks
    omega
  · -- i = j would force a = b, contradicting the strict first-occurrence order
    have hij' : i = j := by omega
    subst hij'
    rw [hKa] at hKb
    subst hKb
    omega

theorem C8_witness :
    0 < 1 ∧
    pyNormalize (((process_enel_legalizacao_data
      ⟨["Status", "ano Acionamento"],
        [["Obra civil", "2024"], ["Em análise", "2024"]]⟩
      "Status" [2024]).em_andamento.subcategorias.getD 0
        ⟨"", [], 0, 0⟩).name) = "obra civil" ∧
    pyNormalize (((process_enel_legalizacao_data
      ⟨["Status", "ano Acionamento"],
        [["Obra civil", "2024"], ["Em análise", "2024"]]⟩
      "Status" [2024]).em_andamento.subcategorias.getD 1
        ⟨"", [], 0, 0⟩).name) = "em análise" := by
  refine ⟨?_, by decide, by decide⟩
  exact @ C8_theorem
    ⟨["Status", "ano Acionamento"],
      [["Obra civil", "2024"], ["Em análise", "2024"]]⟩
    "Status" [2024] 0 1 (by decide) (by decide) (by decide) (by decide)
    0 1 (by decide) (by decide) "obra civil" "em análise"
    (by decide) (by decide) (by decide)

/-! ## Claim C10: classification and ordering in `parse_status_data` -/

theorem psdReorder_eq (configured : List ConfigStatus) (built : List StatusOut) :
    psdReorder configured built =
      configured.filterMap
        (fun cs => built.find? (fun s => s.sheet_value = cs.sheet_value)) := by
  have gen : ∀ (cfg : List ConfigStatus) (acc : List StatusOut),
      cfg.foldl (fun acc cs =>
        match built.find? (fun s => s.sheet_value = cs.sheet_value) with
        | some f => acc ++ [f]
        | none => acc) acc =
      acc ++ cfg.filterMap
        (fun cs => built.find? (fun s => s.sheet_value = cs.sheet_value)) := by
    intro cfg
    induction cfg with
    | nil =>
      intro acc
      simp
    | cons cs t ih =>
      intro acc
      simp only [List.foldl_cons, List.filterMap_cons]
      cases hf : built.find? (fun s => s.sheet_value = cs.sheet_value) with
      | some f => simp [hf, ih, List.append_assoc]
      | none => simp [hf, ih]
  unfold psdReorder
  simpa using gen configured []

theorem mem_psdReorder {configured : List ConfigStatus}
    {built : List StatusOut} {e : StatusOut}
    (h : e ∈ psdReorder configured built) :
    e ∈ built ∧ ∃ cs ∈ configured, e.sheet_value = cs.sheet_value := by
  rw [psdReorder_eq] at h
  rcases List.mem_filterMap.1 h with ⟨cs, hcs, hfind⟩
  refine ⟨List.mem_of_find?_eq_some hfind, cs, hcs, ?_⟩
  have := List.find?_some hfind
  simpa using this

theorem psdReorder_sublist (configured : List ConfigStatus)
    (built : List StatusOut) :
    List.Sublist ((psdReorder configured built).map StatusOut.sheet_value)
      (configured.map ConfigStatus.sheet_value) := by
  rw [psdReorder_eq]
  induction configured with
  | nil => simp
  | cons cs t ih =>
    simp only [List.filterMap_cons, List.map_cons]
    cases hf : built.find? (fun s => s.sheet_value = cs.sheet_value) with
    | none => exact List.Sublist.cons _ ih
    | some f =>
      have hsv : f.sheet_value = cs.sheet_value := by
        simpa using List.find?_some hf
      simp only [List.map_cons]
      rw [hsv]
      exact List.Sublist.cons₂ _ ih

theorem psdOrdered_of_reorder (config : StatusConfig)
    (b1 b2 : List StatusOut) :
    psdOrdered config
      ⟨psdReorder config.main_statuses b1, psdReorder config.other_statuses b2⟩ := by
  have hm : ∀ e ∈ psdReorder config.main_statuses b1,
      e.sheet_value ∈ config.main_statuses.map ConfigStatus.sheet_value := by
    intro e he
    rcases mem_psdReorder he with ⟨_, cs, hcs, hsv⟩
    rw [hsv]
    exact List.mem_map_of_mem _ hcs
  have ho : ∀ e ∈ psdReorder config.other_statuses b2,
      e.sheet_value ∈ config.other_statuses.map ConfigStatus.sheet_value := by
    intro e he
    rcases mem_psdReorder he with ⟨_, cs, hcs, hsv⟩
    rw [hsv]
    exact List.mem_map_of_mem _ hcs
  refine ⟨hm, ho, psdReorder_sublist _ _, psdReorder_sublist _ _, ?_⟩
  intro v hvm hvo e he hev
  rcases he with he | he
  · exact hvm (hev ▸ hm e he)
  · exact hvo (hev ▸ ho e he)

theorem psdOrdered_nil (config : StatusConfig) :
    psdOrdered config ⟨[], []⟩ := by
  refine ⟨by simp, by simp, by simp, by simp, ?_⟩
  intro v _ _ e he
  rcases he with he | he <;> simp at he

theorem parse_shape (data : SheetData) (col : String) (years : List Int)
    (config : StatusConfig) (res : PSDResult)
    (h : parse_status_data data col years config = .ok res) :
    res = ⟨[], []⟩ ∨ ∃ b1 b2 : List StatusOut,
      res = ⟨psdReorder config.main_statuses b1,
             psdReorder config.other_statuses b2⟩ := by
  unfold parse_status_data at h
  split at h
  · exact Or.inl (Except.ok.inj h).symm
  · split at h
    · simp at h
    · exact Or.inr ⟨_, _, (Except.ok.inj h).symm⟩

theorem parse_gs_shape (data : SheetData) (col : String) (years : List Int)
    (config : StatusConfig) (res : PSDResult)
    (h : parse_status_data_gs data col years config = .ok res) :
    res = ⟨[], []⟩ ∨ ∃ b1 b2 : List StatusOut,
      res = ⟨psdReorder config.main_statuses b1,
             psdReorder config.other_statuses b2⟩ := by
  unfold parse_status_data_gs at h
  split at h
  · exact Or.inl (Except.ok.inj h).symm
  · split at h
    · simp at h
    · exact Or.inr ⟨_, _, (Except.ok.inj h).symm⟩

/-- Claim C10: for both copies of `parse_status_data` (spreadsheet_files.py
and google_sheets.py), every successful result has `main_statuses`
(respectively `other_statuses`) entries whose `sheet_value` belongs to the
configured `main_statuses` (respectively `other_statuses`) set, both lists
follow the configuration order (their sheet-value sequences are sublists of
the configured sequences), and any status value absent from both configured
sets — in particular any value occurring only in the data — appears in
neither output list. -/
theorem C10_theorem (data : SheetData) (status_column : String)
    (years : List Int) (config : StatusConfig) (res res2 : PSDResult)
    (hf : parse_status_data data status_column years config = .ok res)
    (hg : parse_status_data_gs data status_column years config = .ok res2) :
    psdOrdered config res ∧ psdOrdered config res2 := by
  constructor
  · rcases parse_shape data status_column years config res hf with h | ⟨b1, b2, h⟩
    · rw [h]
      exact psdOrdered_nil config
    · rw [h]
      exact psdOrdered_of_reorder config b1 b2
  · rcases parse_gs_shape data status_column years config res2 hg with h | ⟨b1, b2, h⟩
    · rw [h]
      exact psdOrdered_nil config
    · rw [h]
      exact psdOrdered_of_reorder config b1 b2

/-- Witness for C10: both variants run on a concrete dataset containing a
configured main status, a configured other status, and an unconfigured
status, and the ordering properties are checked there. -/
theorem C10_witness :
    psdOrdered sampleConfig sampleOut ∧ psdOrdered sampleConfig sampleOut :=
  C10_theorem sampleSheet "Status" [2024] sampleConfig sampleOut sampleOut
    rfl rfl
